import Mathlib

/-!
Verification of the knowledge-graph persistence layer of the obsidian-mcp
repository.  The data model and the operations below are a shallow embedding
of `src/knowledge-graph/schema.sql` together with the `KnowledgeGraphDatabase`
class (`database.ts`): tables become lists of typed rows, SQLite triggers and
cascading foreign keys become explicit state updates performed by the same
operation, and fallible statements return `Except`.  Timestamps produced by
the SQL function `datetime('now')` are passed in explicitly as a `now`
argument.
-/

namespace ObsidianKG

/-- The four CL lifecycle states, `CHECK (state IN (...))` in the schema. -/
inductive CLState
  | plasma
  | fluid
  | gel
  | crystal
deriving DecidableEq, Repr

/-- Text stored for a `CLState` value. -/
def CLState.toStr : CLState → String
  | .plasma => "plasma"
  | .fluid => "fluid"
  | .gel => "gel"
  | .crystal => "crystal"

/-- The three confidence levels, `CHECK (confidence IN (...))` in the schema. -/
inductive CLConfidence
  | low
  | medium
  | high
deriving DecidableEq, Repr

/-- Text stored for a `CLConfidence` value. -/
def CLConfidence.toStr : CLConfidence → String
  | .low => "low"
  | .medium => "medium"
  | .high => "high"

/-- A row of `knowledge_nodes` (schema.sql). -/
structure KnowledgeNode where
  id : Nat
  path : String
  title : String
  state : CLState
  confidence : CLConfidence
  content_hash : String
  created_at : String
  modified_at : String
  authority_weight : Rat
  content_summary : Option String
  vault_name : String
  file_size : Int
  line_count : Int
deriving DecidableEq, Repr

/-- Input for `insertNode` (the TS interface `KnowledgeNode` without `id`). -/
structure KnowledgeNodeInput where
  path : String
  title : String
  state : CLState
  confidence : CLConfidence
  content_hash : String
  created_at : String
  modified_at : String
  authority_weight : Rat
  content_summary : Option String
  vault_name : String
  file_size : Int
  line_count : Int
deriving DecidableEq, Repr

/-- A row of `semantic_edges` (schema.sql). -/
structure SemanticEdge where
  id : Nat
  source_id : Nat
  target_id : Nat
  relation_type : String
  confidence : Rat
  evidence : Option String
  inferred : Bool
  created_at : String
  modified_at : String
  weight : Rat
  validation_status : String
deriving DecidableEq, Repr

/-- Input for `insertEdge` (the TS interface `SemanticEdge` without `id`). -/
structure SemanticEdgeInput where
  source_id : Nat
  target_id : Nat
  relation_type : String
  confidence : Rat
  evidence : Option String
  inferred : Bool
  created_at : String
  modified_at : String
  weight : Rat
  validation_status : String
deriving DecidableEq, Repr

/-- A row of `semantic_entities` (schema.sql). -/
structure SemanticEntity where
  id : Nat
  name : String
  entity_type : String
  description : Option String
  authority_node_id : Option Nat
  confidence : Rat
  vault_name : String
  created_at : String
  modified_at : String
  mention_count : Int
deriving DecidableEq, Repr

/-- A row of `entity_mentions` (schema.sql). -/
structure EntityMention where
  id : Nat
  entity_id : Nat
  node_id : Nat
  mention_text : String
  context : Option String
  confidence : Rat
  position_start : Option Int
  position_end : Option Int
  mention_type : String
  created_at : String
deriving DecidableEq, Repr

/-- Input for a mention insert (all columns of `entity_mentions` except `id`). -/
structure EntityMentionInput where
  entity_id : Nat
  node_id : Nat
  mention_text : String
  context : Option String
  confidence : Rat
  position_start : Option Int
  position_end : Option Int
  mention_type : String
  created_at : String
deriving DecidableEq, Repr

/-- A row of `state_history` (schema.sql); the TS interface `StateTransition`. -/
structure StateTransition where
  id : Nat
  node_id : Nat
  from_state : Option String
  to_state : String
  from_confidence : Option String
  to_confidence : String
  reason : Option String
  evidence_quality : Rat
  transition_date : String
  user_id : Option String
deriving DecidableEq, Repr

/-- Input for `recordStateTransition` (interface `StateTransition` without `id`). -/
structure StateTransitionInput where
  node_id : Nat
  from_state : Option String
  to_state : String
  from_confidence : Option String
  to_confidence : String
  reason : Option String
  evidence_quality : Rat
  transition_date : String
  user_id : Option String
deriving DecidableEq, Repr

/-- A row of `sync_metadata` (schema.sql); the TS interface `SyncMetadata`. -/
structure SyncMetadata where
  id : Nat
  vault_name : String
  sync_start : String
  sync_end : Option String
  status : String
  notes_processed : Int
  notes_added : Int
  notes_updated : Int
  notes_deleted : Int
  relationships_found : Int
  error_message : Option String
deriving DecidableEq, Repr

/-- An entry of the FTS table `knowledge_search` (schema.sql):
`fts5(path, title, content_summary, state, confidence, vault_name,
content='knowledge_nodes', content_rowid='id')`. -/
structure SearchRow where
  rowid : Nat
  path : String
  title : String
  content_summary : Option String
  state : String
  confidence : String
  vault_name : String
deriving DecidableEq, Repr

/-- The whole SQLite database: one list per table plus the AUTOINCREMENT
counters (`lastInsertRowid` of the next insert for each table). -/
structure DBState where
  nodes : List KnowledgeNode
  edges : List SemanticEdge
  entities : List SemanticEntity
  mentions : List EntityMention
  history : List StateTransition
  syncs : List SyncMetadata
  search : List SearchRow
  nextNodeId : Nat
  nextEdgeId : Nat
  nextEntityId : Nat
  nextMentionId : Nat
  nextHistoryId : Nat
  nextSyncId : Nat
deriving DecidableEq, Repr

/-- The freshly provisioned database: all tables empty, rowids start at 1. -/
def initState : DBState :=
  { nodes := [], edges := [], entities := [], mentions := [], history := []
    syncs := [], search := [], nextNodeId := 1, nextEdgeId := 1
    nextEntityId := 1, nextMentionId := 1, nextHistoryId := 1, nextSyncId := 1 }

/-- Error kinds surfaced by the store.  `ConstraintViolation` is
SQLITE_CONSTRAINT_UNIQUE, `ReferenceError` is SQLITE_CONSTRAINT_FOREIGNKEY,
`CheckViolation` is SQLITE_CONSTRAINT_CHECK, and `SqlSyntaxError` is the
prepare-time rejection of a malformed generated SQL statement. -/
inductive DBError
  | ConstraintViolation
  | ReferenceError
  | CheckViolation
  | SqlSyntaxError
deriving DecidableEq, Repr

/-- The FTS entry the triggers derive from a node row. -/
def nodeToSearch (n : KnowledgeNode) : SearchRow :=
  { rowid := n.id, path := n.path, title := n.title
    content_summary := n.content_summary, state := n.state.toStr
    confidence := n.confidence.toStr, vault_name := n.vault_name }

/-- `KnowledgeGraphDatabase.insertNode`: a plain INSERT into
`knowledge_nodes`.  The schema declares `path TEXT UNIQUE NOT NULL`, so the
statement fails with a uniqueness violation exactly when some existing row
has the same `path` (the vault name is not part of any uniqueness
constraint).  On success the trigger `fts_nodes_insert` adds the matching
`knowledge_search` entry and the new rowid is returned. -/
def insertNode (db : DBState) (n : KnowledgeNodeInput) :
    Except DBError (DBState × Nat) :=
  if db.nodes.any (fun m => m.path == n.path) then
    .error .ConstraintViolation
  else
    let node : KnowledgeNode :=
      { id := db.nextNodeId, path := n.path, title := n.title, state := n.state
        confidence := n.confidence, content_hash := n.content_hash
        created_at := n.created_at, modified_at := n.modified_at
        authority_weight := n.authority_weight
        content_summary := n.content_summary, vault_name := n.vault_name
        file_size := n.file_size, line_count := n.line_count }
    .ok ({ db with
            nodes := db.nodes ++ [node]
            search := db.search ++ [nodeToSearch node]
            nextNodeId := db.nextNodeId + 1 }, db.nextNodeId)

/-- The set of fields supplied to `updateNode` (TS `Partial` of the node
interface; the `id` key is filtered out by the implementation, so it is not
representable here).  `none` means the key is absent. -/
structure NodeUpdate where
  path : Option String := none
  title : Option String := none
  state : Option CLState := none
  confidence : Option CLConfidence := none
  content_hash : Option String := none
  created_at : Option String := none
  modified_at : Option String := none
  authority_weight : Option Rat := none
  content_summary : Option (Option String) := none
  vault_name : Option String := none
  file_size : Option Int := none
  line_count : Option Int := none
deriving DecidableEq, Repr

/-- True when no field is supplied (`Object.keys(updates)` is empty). -/
def NodeUpdate.isEmpty (u : NodeUpdate) : Bool :=
  u.path.isNone && u.title.isNone && u.state.isNone && u.confidence.isNone &&
  u.content_hash.isNone && u.created_at.isNone && u.modified_at.isNone &&
  u.authority_weight.isNone && u.content_summary.isNone &&
  u.vault_name.isNone && u.file_size.isNone && u.line_count.isNone

/-- Effect of the generated `UPDATE knowledge_nodes SET <fields>,
modified_at = datetime('now') WHERE id = ?` on one row.  A caller-supplied
`modified_at` is overridden: in a SQLite UPDATE, when the same column is
assigned more than once all but the rightmost assignment are ignored, and
the implementation always appends `modified_at = datetime('now')` last. -/
def applyNodeUpdate (nd : KnowledgeNode) (u : NodeUpdate) (now : String) :
    KnowledgeNode :=
  { id := nd.id
    path := u.path.getD nd.path
    title := u.title.getD nd.title
    state := u.state.getD nd.state
    confidence := u.confidence.getD nd.confidence
    content_hash := u.content_hash.getD nd.content_hash
    created_at := u.created_at.getD nd.created_at
    modified_at := now
    authority_weight := u.authority_weight.getD nd.authority_weight
    content_summary := u.content_summary.getD nd.content_summary
    vault_name := u.vault_name.getD nd.vault_name
    file_size := u.file_size.getD nd.file_size
    line_count := u.line_count.getD nd.line_count }

/-- `KnowledgeGraphDatabase.updateNode`.  With no supplied fields the
generated SQL reads `SET , modified_at = datetime('now')` and is rejected at
prepare time.  Otherwise the row whose rowid matches is rewritten (rowids
are a primary key, so at most one row matches; a missing id updates zero
rows and is not an error), the uniqueness of `path` is enforced against the
other rows, and the trigger `fts_nodes_update` replaces the FTS entry of the
updated row (delete of the OLD entry, insert of the NEW one). -/
def updateNode (db : DBState) (id : Nat) (u : NodeUpdate) (now : String) :
    Except DBError DBState :=
  if u.isEmpty then .error .SqlSyntaxError
  else
    match db.nodes.find? (fun nd => nd.id == id) with
    | none => .ok db
    | some nd =>
      let nd' := applyNodeUpdate nd u now
      if db.nodes.any (fun m => m.id != id && m.path == nd'.path) then
        .error .ConstraintViolation
      else
        .ok { db with
                nodes := db.nodes.map
                  (fun m => if m.id == id then applyNodeUpdate m u now else m)
                search := db.search.filter (fun s => s.rowid != id)
                  ++ [nodeToSearch nd'] }

/-- `KnowledgeGraphDatabase.getNodeById`: `SELECT * WHERE id = ?`. -/
def getNodeById (db : DBState) (id : Nat) : Option KnowledgeNode :=
  db.nodes.find? (fun nd => nd.id == id)

/-- `KnowledgeGraphDatabase.getNodeByPath`:
`SELECT * WHERE path = ? AND vault_name = ?`. -/
def getNodeByPath (db : DBState) (path vaultName : String) :
    Option KnowledgeNode :=
  db.nodes.find? (fun nd => nd.path == path && nd.vault_name == vaultName)

/-- Effect of the `update_mention_count_delete` trigger on one
`semantic_entities` row when the rows of `removed` are deleted from
`entity_mentions`: the trigger fires once per deleted row, so the count
drops by the number of removed mentions of the entity, and `modified_at`
is stamped when the trigger fired at all. -/
def decEntity (removed : List EntityMention) (now : String)
    (e : SemanticEntity) : SemanticEntity :=
  let k := (removed.filter fun m => m.entity_id == e.id).length
  if k == 0 then e else
    { e with mention_count := e.mention_count - (k : Int)
             modified_at := now }

/-- Effect of deleting a node on one `semantic_entities` row: the cascaded
mention deletions fire the count trigger (`decEntity`), and the
`ON DELETE SET NULL` action clears `authority_node_id` when it pointed at
the deleted node. -/
def cascadeEntity (removed : List EntityMention) (id : Nat) (now : String)
    (e : SemanticEntity) : SemanticEntity :=
  let e1 := decEntity removed now e
  if e1.authority_node_id == some id then
    { e1 with authority_node_id := none }
  else e1

/-- `KnowledgeGraphDatabase.deleteNode`: `DELETE FROM knowledge_nodes WHERE
id = ?`.  The schema makes the dependents cascade: `semantic_edges` rows
whose source or target is the node, `entity_mentions` rows of the node
(each cascade-deleted mention fires `update_mention_count_delete`, which
decrements `mention_count` of its entity and stamps the entity
`modified_at`), and `state_history` rows of the node; `semantic_entities`
rows pointing at the node through `authority_node_id` are set to NULL; the
trigger `fts_nodes_delete` removes the FTS entry.  When no row has the id
the statement deletes nothing and succeeds. -/
def deleteNode (db : DBState) (id : Nat) (now : String) : DBState :=
  if db.nodes.any (fun m => m.id == id) then
    let removed := db.mentions.filter (fun m => m.node_id == id)
    { db with
        nodes := db.nodes.filter (fun m => m.id != id)
        edges := db.edges.filter
          (fun e => e.source_id != id && e.target_id != id)
        mentions := db.mentions.filter (fun m => m.node_id != id)
        history := db.history.filter (fun h => h.node_id != id)
        entities := db.entities.map (cascadeEntity removed id now)
        search := db.search.filter (fun s => s.rowid != id) }
  else db

/-- `KnowledgeGraphDatabase.insertEdge`: a plain INSERT into
`semantic_edges`.  SQLite checks the constraints of the insert in order:
the CHECK on `confidence`, then the UNIQUE index on
`(source_id, target_id, relation_type)`, then the foreign keys on the two
endpoints.  There is no upsert clause: a duplicate triple is rejected, the
existing row is left untouched. -/
def insertEdge (db : DBState) (e : SemanticEdgeInput) :
    Except DBError (DBState × Nat) :=
  if e.confidence < 0 ∨ 1 < e.confidence then
    .error .CheckViolation
  else if db.edges.any (fun d =>
      d.source_id == e.source_id && d.target_id == e.target_id &&
      d.relation_type == e.relation_type) then
    .error .ConstraintViolation
  else if !(db.nodes.any (fun n => n.id == e.source_id)) ||
          !(db.nodes.any (fun n => n.id == e.target_id)) then
    .error .ReferenceError
  else
    let edge : SemanticEdge :=
      { id := db.nextEdgeId, source_id := e.source_id
        target_id := e.target_id, relation_type := e.relation_type
        confidence := e.confidence, evidence := e.evidence
        inferred := e.inferred, created_at := e.created_at
        modified_at := e.modified_at, weight := e.weight
        validation_status := e.validation_status }
    .ok ({ db with edges := db.edges ++ [edge]
                   nextEdgeId := db.nextEdgeId + 1 }, db.nextEdgeId)

/-- Comparator of `ORDER BY weight DESC, confidence DESC`. -/
def edgeOrd (a b : SemanticEdge) : Prop :=
  b.weight < a.weight ∨ (a.weight = b.weight ∧ b.confidence ≤ a.confidence)

instance : DecidableRel edgeOrd := fun a b =>
  inferInstanceAs (Decidable (b.weight < a.weight ∨
    (a.weight = b.weight ∧ b.confidence ≤ a.confidence)))

/-- `KnowledgeGraphDatabase.getEdgesForNode`: outgoing edges
(`source_id = ?`) and incoming edges (`target_id = ?`), each ordered by
weight then confidence, both descending. -/
def getEdgesForNode (db : DBState) (nodeId : Nat) :
    List SemanticEdge × List SemanticEdge :=
  (List.insertionSort edgeOrd
      (db.edges.filter (fun e => e.source_id == nodeId)),
   List.insertionSort edgeOrd
      (db.edges.filter (fun e => e.target_id == nodeId)))

/-- `KnowledgeGraphDatabase.recordStateTransition`: INSERT into
`state_history`; the foreign key requires the node to exist. -/
def recordStateTransition (db : DBState) (t : StateTransitionInput) :
    Except DBError (DBState × Nat) :=
  if db.nodes.any (fun n => n.id == t.node_id) then
    let row : StateTransition :=
      { id := db.nextHistoryId, node_id := t.node_id
        from_state := t.from_state, to_state := t.to_state
        from_confidence := t.from_confidence
        to_confidence := t.to_confidence, reason := t.reason
        evidence_quality := t.evidence_quality
        transition_date := t.transition_date, user_id := t.user_id }
    .ok ({ db with history := db.history ++ [row]
                   nextHistoryId := db.nextHistoryId + 1 }, db.nextHistoryId)
  else .error .ReferenceError

/-- Comparator of `ORDER BY transition_date DESC`. -/
def dateDesc (a b : StateTransition) : Prop :=
  b.transition_date ≤ a.transition_date

instance : DecidableRel dateDesc := fun a b =>
  decidable_of_iff (b.transition_date.toList ≤ a.transition_date.toList)
    String.le_iff_toList_le.symm

/-- `KnowledgeGraphDatabase.getStateHistory`:
`SELECT * FROM state_history WHERE node_id = ? ORDER BY transition_date
DESC`. -/
def getStateHistory (db : DBState) (nodeId : Nat) : List StateTransition :=
  List.insertionSort dateDesc
    (db.history.filter (fun h => h.node_id == nodeId))

/-- `KnowledgeGraphDatabase.startSync`: INSERT into `sync_metadata` with
status `running`, `sync_start = datetime('now')` and all counters zero. -/
def startSync (db : DBState) (vaultName now : String) : DBState × Nat :=
  let row : SyncMetadata :=
    { id := db.nextSyncId, vault_name := vaultName, sync_start := now
      sync_end := none, status := "running", notes_processed := 0
      notes_added := 0, notes_updated := 0, notes_deleted := 0
      relationships_found := 0, error_message := none }
  ({ db with syncs := db.syncs ++ [row]
             nextSyncId := db.nextSyncId + 1 }, db.nextSyncId)

/-- The set of fields supplied to `updateSyncProgress` (TS `Partial` of the
sync interface; the `id` key is filtered out by the implementation). -/
structure SyncUpdate where
  vault_name : Option String := none
  sync_start : Option String := none
  sync_end : Option String := none
  status : Option String := none
  notes_processed : Option Int := none
  notes_added : Option Int := none
  notes_updated : Option Int := none
  notes_deleted : Option Int := none
  relationships_found : Option Int := none
  error_message : Option String := none
deriving DecidableEq, Repr

/-- True when no field is supplied (`Object.keys(updates)` is empty). -/
def SyncUpdate.isEmpty (u : SyncUpdate) : Bool :=
  u.vault_name.isNone && u.sync_start.isNone && u.sync_end.isNone &&
  u.status.isNone && u.notes_processed.isNone && u.notes_added.isNone &&
  u.notes_updated.isNone && u.notes_deleted.isNone &&
  u.relationships_found.isNone && u.error_message.isNone

/-- Effect of the generated `UPDATE sync_metadata SET <fields> WHERE id = ?`
on one row. -/
def applySyncUpdate (s : SyncMetadata) (u : SyncUpdate) : SyncMetadata :=
  { id := s.id
    vault_name := u.vault_name.getD s.vault_name
    sync_start := u.sync_start.getD s.sync_start
    sync_end := match u.sync_end with | some v => some v | none => s.sync_end
    status := u.status.getD s.status
    notes_processed := u.notes_processed.getD s.notes_processed
    notes_added := u.notes_added.getD s.notes_added
    notes_updated := u.notes_updated.getD s.notes_updated
    notes_deleted := u.notes_deleted.getD s.notes_deleted
    relationships_found := u.relationships_found.getD s.relationships_found
    error_message :=
      match u.error_message with | some v => some v | none => s.error_message }

/-- `KnowledgeGraphDatabase.updateSyncProgress`.  With no supplied fields
the generated SQL reads `SET  WHERE id = ?` and is rejected at prepare
time; otherwise the matching row is rewritten. -/
def updateSyncProgress (db : DBState) (syncId : Nat) (u : SyncUpdate) :
    Except DBError DBState :=
  if u.isEmpty then .error .SqlSyntaxError
  else
    .ok { db with syncs := db.syncs.map fun s =>
            if s.id == syncId then applySyncUpdate s u else s }

/-- `KnowledgeGraphDatabase.completeSync`: stamps `sync_end`, sets the final
status and writes `error_message` (NULL when absent). -/
def completeSync (db : DBState) (syncId : Nat) (status : String)
    (errorMessage : Option String) (now : String) : DBState :=
  { db with syncs := db.syncs.map (fun s =>
      if s.id == syncId then
        { s with status := status, sync_end := some now
                 error_message := errorMessage }
      else s) }

/-- Modelled from the spec: `upsertEntity(name, type, vaultName) -> id`
(section 4.4) is not implemented under src; per the spec it creates the
entity on first sight and otherwise returns the existing id.  The inserted
row takes the schema defaults of `semantic_entities`: `confidence` 0.5,
`mention_count` 0, no description and no authority node. -/
def upsertEntity (db : DBState) (name entityType vaultName now : String) :
    DBState × Nat :=
  match db.entities.find? (fun e => e.name == name) with
  | some e => (db, e.id)
  | none =>
    let row : SemanticEntity :=
      { id := db.nextEntityId, name := name, entity_type := entityType
        description := none, authority_node_id := none
        confidence := mkRat 1 2, vault_name := vaultName
        created_at := now, modified_at := now, mention_count := 0 }
    ({ db with entities := db.entities ++ [row]
               nextEntityId := db.nextEntityId + 1 }, db.nextEntityId)

/-- Modelled from the spec: `recordMention` (section 4.4) is not implemented
under src; per the spec it inserts one `entity_mentions` row.  The row-level
effects come from schema.sql: the foreign keys require the entity and the
node to exist, and the trigger `update_mention_count_insert` increments
`mention_count` of the owning entity and stamps its `modified_at`. -/
def recordMention (db : DBState) (m : EntityMentionInput) (now : String) :
    Except DBError (DBState × Nat) :=
  if !(db.entities.any (fun e => e.id == m.entity_id)) ||
     !(db.nodes.any (fun n => n.id == m.node_id)) then
    .error .ReferenceError
  else
    let row : EntityMention :=
      { id := db.nextMentionId, entity_id := m.entity_id
        node_id := m.node_id, mention_text := m.mention_text
        context := m.context, confidence := m.confidence
        position_start := m.position_start, position_end := m.position_end
        mention_type := m.mention_type, created_at := m.created_at }
    .ok ({ db with
            mentions := db.mentions ++ [row]
            entities := db.entities.map (fun e =>
              if e.id == m.entity_id then
                { e with mention_count := e.mention_count + 1
                         modified_at := now }
              else e)
            nextMentionId := db.nextMentionId + 1 }, db.nextMentionId)

/-- Modelled from the spec: `removeMention(mentionId)` (section 4.4) is not
implemented under src; per the spec it deletes the `entity_mentions` row.
The trigger `update_mention_count_delete` (schema.sql) fires once per
deleted row, decrementing `mention_count` of the owning entity and stamping
its `modified_at`; deleting a missing id removes zero rows. -/
def removeMention (db : DBState) (mentionId : Nat) (now : String) : DBState :=
  let removed := db.mentions.filter (fun m => m.id == mentionId)
  if removed.isEmpty then db
  else
    { db with
        mentions := db.mentions.filter (fun m => m.id != mentionId)
        entities := db.entities.map (decEntity removed now) }

/-- A row delete on `semantic_entities` (`DELETE WHERE id = ?`): the foreign
key of `entity_mentions` cascades, removing the mentions of the entity; the
mention-delete trigger then updates only the row being deleted, so no other
entity is touched. -/
def deleteEntity (db : DBState) (entityId : Nat) : DBState :=
  if db.entities.any (fun e => e.id == entityId) then
    { db with
        entities := db.entities.filter (fun e => e.id != entityId)
        mentions := db.mentions.filter (fun m => m.entity_id != entityId) }
  else db

/-- One call against the store: the operations of `KnowledgeGraphDatabase`
(and the spec-modelled entity/mention row operations), each carrying its
arguments, with the server clock passed explicitly where the SQL uses
`datetime('now')`. -/
inductive DBOp
  | opInsertNode (n : KnowledgeNodeInput)
  | opUpdateNode (id : Nat) (u : NodeUpdate) (now : String)
  | opDeleteNode (id : Nat) (now : String)
  | opInsertEdge (e : SemanticEdgeInput)
  | opRecordTransition (t : StateTransitionInput)
  | opStartSync (vaultName now : String)
  | opUpdateSync (id : Nat) (u : SyncUpdate)
  | opCompleteSync (id : Nat) (status : String) (errorMessage : Option String)
      (now : String)
  | opUpsertEntity (name entityType vaultName now : String)
  | opRecordMention (m : EntityMentionInput) (now : String)
  | opRemoveMention (id : Nat) (now : String)
  | opDeleteEntity (id : Nat)
deriving DecidableEq, Repr

/-- Run one operation; a failing statement changes nothing (each call is a
single SQLite statement, atomic on error). -/
def applyOp (db : DBState) : DBOp → DBState
  | .opInsertNode n =>
    match insertNode db n with | .ok (db', _) => db' | .error _ => db
  | .opUpdateNode id u now =>
    match updateNode db id u now with | .ok db' => db' | .error _ => db
  | .opDeleteNode id now => deleteNode db id now
  | .opInsertEdge e =>
    match insertEdge db e with | .ok (db', _) => db' | .error _ => db
  | .opRecordTransition t =>
    match recordStateTransition db t with
    | .ok (db', _) => db' | .error _ => db
  | .opStartSync vaultName now => (startSync db vaultName now).1
  | .opUpdateSync id u =>
    match updateSyncProgress db id u with | .ok db' => db' | .error _ => db
  | .opCompleteSync id status errorMessage now =>
    completeSync db id status errorMessage now
  | .opUpsertEntity name entityType vaultName now =>
    (upsertEntity db name entityType vaultName now).1
  | .opRecordMention m now =>
    match recordMention db m now with | .ok (db', _) => db' | .error _ => db
  | .opRemoveMention id now => removeMention db id now
  | .opDeleteEntity id => deleteEntity db id

/-- Run a sequence of operations left to right. -/
def runOps (db : DBState) (ops : List DBOp) : DBState :=
  ops.foldl applyOp db

/-!
`KnowledgeGraphDatabase.generateContentHash` is
`crypto.createHash('sha256').update(content).digest('hex')`: the SHA-256
digest of the UTF-8 encoding of the string, rendered as lowercase hex.
The embedding below implements SHA-256 (FIPS 180-4) on `Nat` with explicit
reduction modulo `2 ^ 32`.
-/

/-- `2 ^ 32`, the word modulus of SHA-256. -/
def w32Mod : Nat := 4294967296

/-- Rotate a 32-bit word right by `n` bits. -/
def rotr32 (n x : Nat) : Nat :=
  ((x >>> n) ||| (x <<< (32 - n))) % w32Mod

/-- SHA-256 small sigma 0. -/
def ssig0 (x : Nat) : Nat := (rotr32 7 x) ^^^ (rotr32 18 x) ^^^ (x >>> 3)

/-- SHA-256 small sigma 1. -/
def ssig1 (x : Nat) : Nat := (rotr32 17 x) ^^^ (rotr32 19 x) ^^^ (x >>> 10)

/-- SHA-256 big Sigma 0. -/
def bsig0 (x : Nat) : Nat := (rotr32 2 x) ^^^ (rotr32 13 x) ^^^ (rotr32 22 x)

/-- SHA-256 big Sigma 1. -/
def bsig1 (x : Nat) : Nat := (rotr32 6 x) ^^^ (rotr32 11 x) ^^^ (rotr32 25 x)

/-- SHA-256 choice function; the complement is taken inside 32 bits. -/
def chF (x y z : Nat) : Nat := (x &&& y) ^^^ ((x ^^^ 4294967295) &&& z)

/-- SHA-256 majority function. -/
def majF (x y z : Nat) : Nat := (x &&& y) ^^^ (x &&& z) ^^^ (y &&& z)

/-- The 64 SHA-256 round constants. -/
def sha256K : List Nat :=
  [1116352408, 1899447441, 3049323471, 3921009573,
   961987163, 1508970993, 2453635748, 2870763221,
   3624381080, 310598401, 607225278, 1426881987,
   1925078388, 2162078206, 2614888103, 3248222580,
   3835390401, 4022224774, 264347078, 604807628,
   770255983, 1249150122, 1555081692, 1996064986,
   2554220882, 2821834349, 2952996808, 3210313671,
   3336571891, 3584528711, 113926993, 338241895,
   666307205, 773529912, 1294757372, 1396182291,
   1695183700, 1986661051, 2177026350, 2456956037,
   2730485921, 2820302411, 3259730800, 3345764771,
   3516065817, 3600352804, 4094571909, 275423344,
   430227734, 506948616, 659060556, 883997877,
   958139571, 1322822218, 1537002063, 1747873779,
   1955562222, 2024104815, 2227730452, 2361852424,
   2428436474, 2756734187, 3204031479, 3329325298]

/-- The eight SHA-256 working words. -/
structure Sha256Acc where
  a : Nat
  b : Nat
  c : Nat
  d : Nat
  e : Nat
  f : Nat
  g : Nat
  h : Nat
deriving DecidableEq, Repr

/-- The SHA-256 initial hash value. -/
def sha256Init : Sha256Acc :=
  { a := 1779033703, b := 3144134277, c := 1013904242, d := 2773480762
    e := 1359893119, f := 2600822924, g := 528734635, h := 1541459225 }

/-- Append the next word of the message schedule. -/
def sha256Extend (ws : List Nat) : List Nat :=
  let i := ws.length
  let w2 := ws.getD (i - 2) 0
  let w7 := ws.getD (i - 7) 0
  let w15 := ws.getD (i - 15) 0
  let w16 := ws.getD (i - 16) 0
  ws ++ [(ssig1 w2 + w7 + ssig0 w15 + w16) % w32Mod]

/-- Expand a 16-word block to the 64-word message schedule. -/
def sha256Schedule (block : List Nat) : List Nat :=
  (List.range 48).foldl (fun ws _ => sha256Extend ws) block

/-- One SHA-256 compression round. -/
def sha256Round (acc : Sha256Acc) (k w : Nat) : Sha256Acc :=
  let t1 := (acc.h + bsig1 acc.e + chF acc.e acc.f acc.g + k + w) % w32Mod
  let t2 := (bsig0 acc.a + majF acc.a acc.b acc.c) % w32Mod
  { a := (t1 + t2) % w32Mod, b := acc.a, c := acc.b, d := acc.c
    e := (acc.d + t1) % w32Mod, f := acc.e, g := acc.f, h := acc.g }

/-- Compress one 16-word block into the running hash value. -/
def sha256Block (hs : Sha256Acc) (block : List Nat) : Sha256Acc :=
  let ws := sha256Schedule block
  let acc := (sha256K.zip ws).foldl
    (fun acc kw => sha256Round acc kw.1 kw.2) hs
  { a := (hs.a + acc.a) % w32Mod, b := (hs.b + acc.b) % w32Mod
    c := (hs.c + acc.c) % w32Mod, d := (hs.d + acc.d) % w32Mod
    e := (hs.e + acc.e) % w32Mod, f := (hs.f + acc.f) % w32Mod
    g := (hs.g + acc.g) % w32Mod, h := (hs.h + acc.h) % w32Mod }

/-- Group big-endian bytes into 32-bit words, four bytes per word. -/
def bytesToWords : List Nat → List Nat
  | b0 :: b1 :: b2 :: b3 :: rest =>
    (((b0 * 256 + b1) * 256 + b2) * 256 + b3) :: bytesToWords rest
  | _ => []

/-- SHA-256 padding: append `0x80`, zero bytes up to 56 mod 64, then the
bit length as an 8-byte big-endian integer. -/
def sha256PadBytes (msg : List Nat) : List Nat :=
  let bitLen := msg.length * 8
  let k := (119 - (msg.length % 64)) % 64
  msg ++ [128] ++ List.replicate k 0 ++
    [(bitLen >>> 56) &&& 255, (bitLen >>> 48) &&& 255,
     (bitLen >>> 40) &&& 255, (bitLen >>> 32) &&& 255,
     (bitLen >>> 24) &&& 255, (bitLen >>> 16) &&& 255,
     (bitLen >>> 8) &&& 255, bitLen &&& 255]

/-- Fold the compression function over the 16-word blocks of the padded
message; the fuel argument makes the recursion structural. -/
def sha256FoldAux : Nat → Sha256Acc → List Nat → Sha256Acc
  | 0, hs, _ => hs
  | fuel + 1, hs, ws =>
    if ws.length < 16 then hs
    else sha256FoldAux fuel (sha256Block hs (ws.take 16)) (ws.drop 16)

/-- The SHA-256 digest of a byte list, as eight 32-bit words. -/
def sha256Bytes (msg : List Nat) : Sha256Acc :=
  let ws := bytesToWords (sha256PadBytes msg)
  sha256FoldAux ws.length sha256Init ws

/-- UTF-8 encoding of a single character (RFC 3629). -/
def utf8EncodeChar (c : Char) : List Nat :=
  let n := c.toNat
  if n < 128 then [n]
  else if n < 2048 then
    [192 ||| (n >>> 6), 128 ||| (n &&& 63)]
  else if n < 65536 then
    [224 ||| (n >>> 12), 128 ||| ((n >>> 6) &&& 63), 128 ||| (n &&& 63)]
  else
    [240 ||| (n >>> 18), 128 ||| ((n >>> 12) &&& 63),
     128 ||| ((n >>> 6) &&& 63), 128 ||| (n &&& 63)]

/-- UTF-8 encoding of a string, as `crypto.update` applies to a JS string. -/
def utf8Bytes (s : String) : List Nat :=
  (s.toList.map utf8EncodeChar).flatten

/-- The sixteen lowercase hex digits. -/
def hexDigits : List Char := "0123456789abcdef".toList

/-- The hex digit of a value below 16. -/
def hexDigit (n : Nat) : Char := hexDigits.getD n '0'

/-- The eight hex digits of one 32-bit word, most significant first. -/
def wordToHex (n : Nat) : List Char :=
  [28, 24, 20, 16, 12, 8, 4, 0].map fun k => hexDigit ((n >>> k) &&& 15)

/-- `KnowledgeGraphDatabase.generateContentHash`:
`crypto.createHash('sha256').update(content).digest('hex')`. -/
def generateContentHash (content : String) : String :=
  let acc := sha256Bytes (utf8Bytes content)
  String.mk (wordToHex acc.a ++ wordToHex acc.b ++ wordToHex acc.c ++
    wordToHex acc.d ++ wordToHex acc.e ++ wordToHex acc.f ++
    wordToHex acc.g ++ wordToHex acc.h)

/-! ### Helper lemmas -/

/-- Every output of `hexDigit` is one of the sixteen hex characters. -/
theorem hexDigit_mem (n : Nat) : hexDigit n ∈ hexDigits := by
  unfold hexDigit
  rcases Nat.lt_or_ge n 16 with h | h
  · interval_cases n <;> decide
  · rw [List.getD_eq_default]
    · decide
    · simpa [hexDigits] using h

/-- Every character of `wordToHex` is a hex character. -/
theorem wordToHex_mem {c : Char} {n : Nat} (hc : c ∈ wordToHex n) :
    c ∈ hexDigits := by
  obtain ⟨k, -, rfl⟩ := List.mem_map.mp hc
  exact hexDigit_mem _

/-! ### Claim theorems -/

/-- C9.  `generateContentHash` is a pure function of its input: equal
inputs give equal digests; every digest is a 64-character string of hex
digits (the fixed-length hexadecimal rendering of a 256-bit value); and the
two distinct test strings of the repository test suite hash to distinct
digests. -/
theorem c9_generate_content_hash :
    (∀ s : String, generateContentHash s = generateContentHash s) ∧
    (∀ s : String, (generateContentHash s).length = 64 ∧
      ∀ c ∈ (generateContentHash s).toList, c ∈ hexDigits) ∧
    generateContentHash "First content" ≠ generateContentHash "Second content"
    := by
  refine ⟨fun s => rfl, fun s => ⟨?_, ?_⟩, ?_⟩
  · show (String.mk _).length = 64
    simp [String.length, wordToHex]
  · intro c hc
    have : c ∈ (wordToHex (sha256Bytes (utf8Bytes s)).a ++
        wordToHex (sha256Bytes (utf8Bytes s)).b ++
        wordToHex (sha256Bytes (utf8Bytes s)).c ++
        wordToHex (sha256Bytes (utf8Bytes s)).d ++
        wordToHex (sha256Bytes (utf8Bytes s)).e ++
        wordToHex (sha256Bytes (utf8Bytes s)).f ++
        wordToHex (sha256Bytes (utf8Bytes s)).g ++
        wordToHex (sha256Bytes (utf8Bytes s)).h) := hc
    simp only [List.mem_append] at this
    rcases this with ((((((h | h) | h) | h) | h) | h) | h) | h <;>
      exact wordToHex_mem h
  · decide

/-- C9 witness: the length and hex-digit facts evaluated at a concrete
input. -/
theorem c9_generate_content_hash_witness :
    (generateContentHash "First content").length = 64 ∧
    'a' ∈ hexDigits :=
  ⟨(c9_generate_content_hash.2.1 "First content").1,
    c9_generate_content_hash.2.1 "First content" |>.2 _ (by decide)⟩

/-- Demo node input in vault `vault-one`. -/
def demoNodeV1 : KnowledgeNodeInput :=
  { path := "projects/readme.md", title := "Readme", state := .fluid
    confidence := .medium, content_hash := "h1"
    created_at := "2025-01-01T00:00:00Z", modified_at := "2025-01-01T00:00:00Z"
    authority_weight := 0, content_summary := none, vault_name := "vault-one"
    file_size := 10, line_count := 1 }

/-- Demo node input with the same path in a different vault `vault-two`. -/
def demoNodeV2 : KnowledgeNodeInput :=
  { demoNodeV1 with vault_name := "vault-two", title := "Readme Two" }

/-- The database after inserting `demoNodeV1` into the fresh store. -/
def c2DemoDB1 : DBState := applyOp initState (.opInsertNode demoNodeV1)

/-- C2 counterexample: with `path TEXT UNIQUE` in the schema, inserting a
node whose path equals that of an existing node fails even when the vault
names differ, against the claim that both inserts succeed. -/
theorem c2_counterexample :
    insertNode initState demoNodeV1 = Except.ok (c2DemoDB1, 1) ∧
    insertNode c2DemoDB1 demoNodeV2 = Except.error DBError.ConstraintViolation ∧
    demoNodeV1.path = demoNodeV2.path ∧
    demoNodeV1.vault_name ≠ demoNodeV2.vault_name :=
  ⟨rfl, rfl, rfl, by decide⟩

/-- C2 amended: node path uniqueness is global, not per vault.  `insertNode`
fails with `ConstraintViolation` exactly when some existing node has the
same `path`, regardless of `vault_name`; otherwise it succeeds and returns
the next rowid. -/
theorem c2_insert_node_path_unique (db : DBState) (n : KnowledgeNodeInput) :
    ((∃ m ∈ db.nodes, m.path = n.path) →
      insertNode db n = .error .ConstraintViolation) ∧
    ((∀ m ∈ db.nodes, m.path ≠ n.path) →
      ∃ db', insertNode db n = .ok (db', db.nextNodeId)) := by
  constructor
  · intro hdup
    unfold insertNode
    rw [if_pos]
    simp only [List.any_eq_true, beq_iff_eq]
    obtain ⟨m, hm, hp⟩ := hdup
    exact ⟨m, hm, hp⟩
  · intro hfresh
    unfold insertNode
    rw [if_neg]
    · exact ⟨_, rfl⟩
    · simp only [List.any_eq_true, beq_iff_eq, not_exists]
      intro m
      rintro ⟨hm, hp⟩
      exact hfresh m hm hp

/-- C2 witness: both branches of the amended theorem at concrete inputs. -/
theorem c2_insert_node_path_unique_witness :
    insertNode c2DemoDB1 demoNodeV2 = .error .ConstraintViolation ∧
    ∃ db', insertNode initState demoNodeV1 = .ok (db', initState.nextNodeId) :=
  ⟨(c2_insert_node_path_unique c2DemoDB1 demoNodeV2).1 (by decide),
   (c2_insert_node_path_unique initState demoNodeV1).2 (by decide)⟩

/-- Foreign-key integrity of `semantic_edges`: both endpoints of every edge
reference an existing node.  SQLite enforces this invariant, so every
reachable database state satisfies it. -/
@[reducible] def EdgesFKOk (db : DBState) : Prop :=
  ∀ d ∈ db.edges, (∃ n ∈ db.nodes, n.id = d.source_id) ∧
    (∃ n ∈ db.nodes, n.id = d.target_id)

/-- Edge rowids stay below the AUTOINCREMENT counter. -/
@[reducible] def EdgeIdsBounded (db : DBState) : Prop :=
  ∀ d ∈ db.edges, d.id < db.nextEdgeId

/-- An edge of `db.edges` carrying the same triple as the input `e`. -/
@[reducible] def HasTriple (db : DBState) (e : SemanticEdgeInput) : Prop :=
  ∃ d ∈ db.edges, d.source_id = e.source_id ∧ d.target_id = e.target_id ∧
    d.relation_type = e.relation_type

/-- The boolean duplicate-triple guard of `insertEdge` decides
`HasTriple`. -/
theorem any_triple_iff (db : DBState) (e : SemanticEdgeInput) :
    (db.edges.any fun d => d.source_id == e.source_id &&
      d.target_id == e.target_id && d.relation_type == e.relation_type) = true
      ↔ HasTriple db e := by
  simp [HasTriple, List.any_eq_true, and_assoc]

/-- The boolean node-existence guard decides node existence. -/
theorem any_node_id_iff (l : List KnowledgeNode) (i : Nat) :
    (l.any fun n => n.id == i) = true ↔ ∃ n ∈ l, n.id = i := by
  simp [List.any_eq_true]

/-- A duplicate triple with an in-range confidence is rejected by the
UNIQUE index. -/
theorem insertEdge_dup (db : DBState) (e : SemanticEdgeInput)
    (hc0 : 0 ≤ e.confidence) (hc1 : e.confidence ≤ 1)
    (hdup : HasTriple db e) :
    insertEdge db e = .error .ConstraintViolation := by
  unfold insertEdge
  rw [if_neg (by push_neg; exact ⟨hc0, hc1⟩),
    if_pos ((any_triple_iff db e).mpr hdup)]

/-- A second demo node input with its own path. -/
def demoNodeB : KnowledgeNodeInput :=
  { demoNodeV1 with path := "projects/notes.md", title := "Notes" }

/-- Demo edge from node 1 to node 2 with confidence one half. -/
def demoEdge1 : SemanticEdgeInput :=
  { source_id := 1, target_id := 2, relation_type := "depends_on"
    confidence := mkRat 1 2, evidence := none, inferred := false
    created_at := "2025-01-01T00:00:00Z", modified_at := "2025-01-01T00:00:00Z"
    weight := 1, validation_status := "unvalidated" }

/-- Re-assertion of the same triple with a different confidence and
weight. -/
def demoEdge2 : SemanticEdgeInput :=
  { demoEdge1 with confidence := 1, weight := 2 }

/-- Two nodes and the first demo edge, built from the fresh store. -/
def c3DemoDB : DBState :=
  runOps initState
    [.opInsertNode demoNodeV1, .opInsertNode demoNodeB,
     .opInsertEdge demoEdge1]

/-- C3 counterexample: re-asserting the `(source, target, relation_type)`
triple of an existing edge with a new confidence does not update the
existing row; the plain INSERT is rejected by the UNIQUE index and the
stored edge keeps its original confidence. -/
theorem c3_counterexample :
    insertEdge c3DemoDB demoEdge2 = Except.error DBError.ConstraintViolation ∧
    applyOp c3DemoDB (.opInsertEdge demoEdge2) = c3DemoDB ∧
    (c3DemoDB.edges.map fun d => d.confidence) = [mkRat 1 2] :=
  ⟨rfl, rfl, by decide⟩

/-- C3 amended: the uniqueness of the triple is enforced by rejection, not
by update.  Asserting an already-present triple through `insertEdge` fails
with `ConstraintViolation` and leaves the database, in particular the
existing edge row, unchanged. -/
theorem c3_edge_reassert_rejected (db : DBState) (e : SemanticEdgeInput)
    (hc0 : 0 ≤ e.confidence) (hc1 : e.confidence ≤ 1)
    (hdup : HasTriple db e) :
    insertEdge db e = .error .ConstraintViolation ∧
    applyOp db (.opInsertEdge e) = db := by
  have herr := insertEdge_dup db e hc0 hc1 hdup
  exact ⟨herr, by simp [applyOp, herr]⟩

/-- C3 witness: the amended theorem at the concrete duplicate edge. -/
theorem c3_edge_reassert_rejected_witness :
    insertEdge c3DemoDB demoEdge2 = .error .ConstraintViolation ∧
    applyOp c3DemoDB (.opInsertEdge demoEdge2) = c3DemoDB :=
  c3_edge_reassert_rejected c3DemoDB demoEdge2 (by decide) (by decide)
    (by decide)

/-- C7.  `insertEdge` on an input whose confidence satisfies the CHECK
constraint: a duplicate triple is rejected as `ConstraintViolation`; a
missing endpoint is rejected as `ReferenceError` (under foreign-key
integrity a duplicate triple cannot coexist with a missing endpoint, so the
two cases do not overlap); otherwise the insert succeeds and returns a
fresh id. -/
theorem c7_insert_edge_cases (db : DBState) (e : SemanticEdgeInput)
    (hfk : EdgesFKOk db) (hb : EdgeIdsBounded db)
    (hc0 : 0 ≤ e.confidence) (hc1 : e.confidence ≤ 1) :
    (HasTriple db e → insertEdge db e = .error .ConstraintViolation) ∧
    (((¬ ∃ n ∈ db.nodes, n.id = e.source_id) ∨
      (¬ ∃ n ∈ db.nodes, n.id = e.target_id)) →
        insertEdge db e = .error .ReferenceError) ∧
    ((∃ n ∈ db.nodes, n.id = e.source_id) →
     (∃ n ∈ db.nodes, n.id = e.target_id) →
     ¬ HasTriple db e →
      ∃ db', insertEdge db e = .ok (db', db.nextEdgeId) ∧
        ∀ d ∈ db.edges, d.id ≠ db.nextEdgeId) := by
  have hchk : ¬ (e.confidence < 0 ∨ 1 < e.confidence) := by
    push_neg
    exact ⟨hc0, hc1⟩
  refine ⟨insertEdge_dup db e hc0 hc1, ?_, ?_⟩
  · intro hmiss
    have hnodup : ¬ (db.edges.any fun d =>
        d.source_id == e.source_id && d.target_id == e.target_id &&
        d.relation_type == e.relation_type) = true := by
      rw [any_triple_iff]
      rintro ⟨d, hd, h1, h2, _⟩
      obtain ⟨hs, ht⟩ := hfk d hd
      rcases hmiss with hm | hm
      · exact hm (h1 ▸ hs)
      · exact hm (h2 ▸ ht)
    unfold insertEdge
    rw [if_neg hchk, if_neg hnodup, if_pos]
    rcases hmiss with hm | hm
    · have : (db.nodes.any fun n => n.id == e.source_id) = false := by
        rw [← Bool.not_eq_true, any_node_id_iff]
        exact hm
      simp [this]
    · have : (db.nodes.any fun n => n.id == e.target_id) = false := by
        rw [← Bool.not_eq_true, any_node_id_iff]
        exact hm
      simp [this]
  · intro hs ht hnd
    have hsrc : (db.nodes.any fun n => n.id == e.source_id) = true :=
      (any_node_id_iff _ _).mpr hs
    have htgt : (db.nodes.any fun n => n.id == e.target_id) = true :=
      (any_node_id_iff _ _).mpr ht
    unfold insertEdge
    rw [if_neg hchk, if_neg, if_neg]
    · exact ⟨_, rfl, fun d hd => Nat.ne_of_lt (hb d hd)⟩
    · simp [hsrc, htgt]
    · rw [any_triple_iff]
      exact hnd

/-- C7 witness: the success case of the theorem at a concrete input. -/
theorem c7_insert_edge_cases_witness :
    ∃ db', insertEdge c3DemoDB
        { demoEdge1 with relation_type := "implements" } =
      .ok (db', c3DemoDB.nextEdgeId) ∧
      ∀ d ∈ c3DemoDB.edges, d.id ≠ c3DemoDB.nextEdgeId :=
  (c7_insert_edge_cases c3DemoDB
    { demoEdge1 with relation_type := "implements" }
    (by decide) (by decide) (by decide) (by decide)).2.2
    (by decide) (by decide) (by decide)

/-- The empty node update: no key supplied (`{}` in TS). -/
def emptyNodeUpdate : NodeUpdate := {}

/-- The empty sync update: no key supplied (`{}` in TS). -/
def emptySyncUpdate : SyncUpdate := {}

/-- C10.  With an empty field set the generated UPDATE statements are
malformed (`SET , modified_at = datetime('now')` for nodes, `SET  WHERE`
for sync rows), so both calls throw at prepare time and change nothing; in
particular `updateNode` with no fields does not merely stamp
`modified_at`. -/
theorem c10_empty_update_malformed :
    (∀ (db : DBState) (id : Nat) (now : String),
      updateNode db id emptyNodeUpdate now = .error .SqlSyntaxError ∧
      applyOp db (.opUpdateNode id emptyNodeUpdate now) = db) ∧
    (∀ (db : DBState) (id : Nat),
      updateSyncProgress db id emptySyncUpdate = .error .SqlSyntaxError ∧
      applyOp db (.opUpdateSync id emptySyncUpdate) = db) := by
  constructor
  · intro db id now
    have h : updateNode db id emptyNodeUpdate now = .error .SqlSyntaxError := by
      have he : emptyNodeUpdate.isEmpty = true := rfl
      unfold updateNode
      rw [if_pos he]
    exact ⟨h, by simp [applyOp, h]⟩
  · intro db id
    have h : updateSyncProgress db id emptySyncUpdate =
        .error .SqlSyntaxError := by
      have he : emptySyncUpdate.isEmpty = true := rfl
      unfold updateSyncProgress
      rw [if_pos he]
    exact ⟨h, by simp [applyOp, h]⟩

/-- Field-level description of one updated node row: `modified_at` is
stamped with the server time whatever the caller supplied for it, every
other supplied field takes the supplied value, and every field not supplied
keeps its stored value. -/
def UpdateSpec (nd nd' : KnowledgeNode) (u : NodeUpdate) (now : String) :
    Prop :=
  nd'.id = nd.id ∧
  nd'.modified_at = now ∧
  (∀ v, u.modified_at = some v → nd'.modified_at = now) ∧
  (∀ v, u.path = some v → nd'.path = v) ∧
  (u.path = none → nd'.path = nd.path) ∧
  (∀ v, u.title = some v → nd'.title = v) ∧
  (u.title = none → nd'.title = nd.title) ∧
  (∀ v, u.state = some v → nd'.state = v) ∧
  (u.state = none → nd'.state = nd.state) ∧
  (∀ v, u.confidence = some v → nd'.confidence = v) ∧
  (u.confidence = none → nd'.confidence = nd.confidence) ∧
  (∀ v, u.content_hash = some v → nd'.content_hash = v) ∧
  (u.content_hash = none → nd'.content_hash = nd.content_hash) ∧
  (∀ v, u.created_at = some v → nd'.created_at = v) ∧
  (u.created_at = none → nd'.created_at = nd.created_at) ∧
  (∀ v, u.authority_weight = some v → nd'.authority_weight = v) ∧
  (u.authority_weight = none →
    nd'.authority_weight = nd.authority_weight) ∧
  (∀ v, u.content_summary = some v → nd'.content_summary = v) ∧
  (u.content_summary = none →
    nd'.content_summary = nd.content_summary) ∧
  (∀ v, u.vault_name = some v → nd'.vault_name = v) ∧
  (u.vault_name = none → nd'.vault_name = nd.vault_name) ∧
  (∀ v, u.file_size = some v → nd'.file_size = v) ∧
  (u.file_size = none → nd'.file_size = nd.file_size) ∧
  (∀ v, u.line_count = some v → nd'.line_count = v) ∧
  (u.line_count = none → nd'.line_count = nd.line_count)

/-- `applyNodeUpdate` satisfies the field-level description. -/
theorem applyNodeUpdate_spec (nd : KnowledgeNode) (u : NodeUpdate)
    (now : String) : UpdateSpec nd (applyNodeUpdate nd u now) u now := by
  unfold UpdateSpec applyNodeUpdate
  refine ⟨rfl, rfl, fun v _ => rfl, ?_, ?_, ?_, ?_, ?_, ?_, ?_, ?_, ?_, ?_,
    ?_, ?_, ?_, ?_, ?_, ?_, ?_, ?_, ?_, ?_, ?_, ?_⟩ <;>
    first
      | (intro v h; simp [h])
      | (intro h; simp [h])

/-- `find?` over an id-preserving rewrite of the rows commutes with the
rewrite. -/
theorem find?_map_id_preserving (l : List KnowledgeNode)
    (g : KnowledgeNode → KnowledgeNode) (hg : ∀ m, (g m).id = m.id)
    (j : Nat) :
    ((l.map g).find? fun m => m.id == j) =
      ((l.find? fun m => m.id == j).map g) := by
  induction l with
  | nil => rfl
  | cons x xs ih =>
    by_cases hx : x.id = j
    · rw [List.map_cons, List.find?_cons_of_pos, List.find?_cons_of_pos]
      · rfl
      · simp [hx]
      · simp [hg, hx]
    · rw [List.map_cons, List.find?_cons_of_neg, List.find?_cons_of_neg]
      · exact ih
      · simp [hx]
      · simp [hg, hx]

/-- C4.  For an existing node id and a non-empty update that does not move
the path onto another row, `updateNode` succeeds, rewrites exactly that row
according to `UpdateSpec` (supplied fields take their supplied values,
`modified_at` is stamped server-side regardless of any supplied value, all
other fields keep their stored values), and leaves every other node row and
every other table unchanged. -/
theorem c4_update_node (db : DBState) (id : Nat) (u : NodeUpdate)
    (now : String) (nd : KnowledgeNode)
    (hfind : getNodeById db id = some nd)
    (hne : u.isEmpty = false)
    (hpath : ∀ m ∈ db.nodes, m.id ≠ id →
      m.path ≠ (applyNodeUpdate nd u now).path) :
    ∃ db', updateNode db id u now = .ok db' ∧
      getNodeById db' id = some (applyNodeUpdate nd u now) ∧
      UpdateSpec nd (applyNodeUpdate nd u now) u now ∧
      (∀ j, j ≠ id → getNodeById db' j = getNodeById db j) ∧
      db'.edges = db.edges ∧ db'.entities = db.entities ∧
      db'.mentions = db.mentions ∧ db'.history = db.history ∧
      db'.syncs = db.syncs := by
  have hid : nd.id = id := by
    have := List.find?_some hfind
    simpa using this
  have hmem : nd ∈ db.nodes := List.mem_of_find?_eq_some hfind
  have hnoclash : ¬ (db.nodes.any fun m =>
      m.id != id && m.path == (applyNodeUpdate nd u now).path) = true := by
    simp only [List.any_eq_true, Bool.and_eq_true, bne_iff_ne, beq_iff_eq,
      not_exists]
    rintro m ⟨hm, hmid, hmp⟩
    exact hpath m hm hmid hmp
  have hstep : updateNode db id u now = .ok
      { db with
          nodes := db.nodes.map
            (fun m => if m.id == id then applyNodeUpdate m u now else m)
          search := db.search.filter (fun s => s.rowid != id)
            ++ [nodeToSearch (applyNodeUpdate nd u now)] } := by
    have hfind' : (db.nodes.find? fun nd => nd.id == id) = some nd := hfind
    unfold updateNode
    rw [if_neg (by simp [hne]), hfind']
    dsimp only
    rw [if_neg hnoclash]
  refine ⟨_, hstep, ?_, applyNodeUpdate_spec nd u now, ?_, rfl, rfl, rfl,
    rfl, rfl⟩
  · show ((db.nodes.map fun m =>
        if m.id == id then applyNodeUpdate m u now else m).find?
          fun m => m.id == id) = _
    rw [find?_map_id_preserving db.nodes _
      (fun m => by by_cases h : m.id = id <;> simp [applyNodeUpdate, h]) id]
    rw [show (db.nodes.find? fun m => m.id == id) = some nd from hfind]
    simp [hid]
  · intro j hj
    show ((db.nodes.map fun m =>
        if m.id == id then applyNodeUpdate m u now else m).find?
          fun m => m.id == j) = _
    rw [find?_map_id_preserving db.nodes _
      (fun m => by by_cases h : m.id = id <;> simp [applyNodeUpdate, h]) j]
    unfold getNodeById
    cases hf : db.nodes.find? fun m => m.id == j with
    | none => rfl
    | some m =>
      have hmj : m.id = j := by simpa using List.find?_some hf
      have : ¬ m.id = id := by
        rw [hmj]
        exact hj
      simp [this]

/-- A one-field update of the demo node: a new title together with a
caller-supplied `modified_at`, which must be overridden. -/
def c4DemoUpdate : NodeUpdate :=
  { title := some "Renamed", modified_at := some "1999-01-01T00:00:00Z" }

/-- The demo node row as stored by `insertNode demoNodeV1`. -/
def demoNodeRow1 : KnowledgeNode :=
  { id := 1, path := "projects/readme.md", title := "Readme", state := .fluid
    confidence := .medium, content_hash := "h1"
    created_at := "2025-01-01T00:00:00Z", modified_at := "2025-01-01T00:00:00Z"
    authority_weight := 0, content_summary := none, vault_name := "vault-one"
    file_size := 10, line_count := 1 }

/-- C4 witness: the theorem applied at a concrete store, node and update. -/
theorem c4_update_node_witness :
    ∃ db', updateNode c2DemoDB1 1 c4DemoUpdate "2025-02-01T00:00:00Z" =
        .ok db' ∧
      getNodeById db' 1 =
        some (applyNodeUpdate demoNodeRow1 c4DemoUpdate
          "2025-02-01T00:00:00Z") ∧
      UpdateSpec demoNodeRow1
        (applyNodeUpdate demoNodeRow1 c4DemoUpdate "2025-02-01T00:00:00Z")
        c4DemoUpdate "2025-02-01T00:00:00Z" ∧
      (∀ j, j ≠ 1 → getNodeById db' j = getNodeById c2DemoDB1 j) ∧
      db'.edges = c2DemoDB1.edges ∧ db'.entities = c2DemoDB1.entities ∧
      db'.mentions = c2DemoDB1.mentions ∧ db'.history = c2DemoDB1.history ∧
      db'.syncs = c2DemoDB1.syncs :=
  c4_update_node c2DemoDB1 1 c4DemoUpdate "2025-02-01T00:00:00Z"
    demoNodeRow1 (by decide) (by decide) (by decide)

/-- Foreign-key integrity of `entity_mentions` towards nodes. -/
@[reducible] def MentionsFKOk (db : DBState) : Prop :=
  ∀ m ∈ db.mentions, ∃ n ∈ db.nodes, n.id = m.node_id

/-- Foreign-key integrity of `state_history` towards nodes. -/
@[reducible] def HistoryFKOk (db : DBState) : Prop :=
  ∀ h ∈ db.history, ∃ n ∈ db.nodes, n.id = h.node_id

/-- Filtering with `p` after keeping only elements on which `p` is false
leaves nothing. -/
theorem filter_disjoint_nil {α : Type} (l : List α) (p q : α → Bool)
    (h : ∀ a, q a = true → p a = false) : (l.filter q).filter p = [] := by
  rw [List.filter_eq_nil_iff]
  intro a ha
  rw [h a (List.of_mem_filter ha)]
  exact Bool.false_ne_true

/-- C5.  `deleteNode` removes the node together with its edges (both
directions), its mentions and its history rows, so lookups by the deleted
id come back empty everywhere; deleting a non-existent id succeeds and
changes nothing.  The foreign-key hypotheses hold in every reachable
database state (SQLite enforces them). -/
theorem c5_delete_node_cascade (db : DBState) (id : Nat) (now : String)
    (hefk : EdgesFKOk db) (hmfk : MentionsFKOk db) (hhfk : HistoryFKOk db) :
    getNodeById (deleteNode db id now) id = none ∧
    getEdgesForNode (deleteNode db id now) id = ([], []) ∧
    (∀ m ∈ (deleteNode db id now).mentions, m.node_id ≠ id) ∧
    getStateHistory (deleteNode db id now) id = [] ∧
    (getNodeById db id = none → deleteNode db id now = db) := by
  by_cases hex : (db.nodes.any fun m => m.id == id) = true
  · have hdel : deleteNode db id now =
        { db with
            nodes := db.nodes.filter (fun m => m.id != id)
            edges := db.edges.filter
              (fun e => e.source_id != id && e.target_id != id)
            mentions := db.mentions.filter (fun m => m.node_id != id)
            history := db.history.filter (fun h => h.node_id != id)
            entities := db.entities.map
              (cascadeEntity (db.mentions.filter fun m => m.node_id == id)
                id now)
            search := db.search.filter (fun s => s.rowid != id) } := by
      unfold deleteNode
      rw [if_pos hex]
    refine ⟨?_, ?_, ?_, ?_, ?_⟩
    · rw [hdel]
      unfold getNodeById
      apply List.find?_eq_none.mpr
      intro x hx
      have := List.of_mem_filter hx
      simp only [bne_iff_ne] at this
      simp [this]
    · rw [hdel]
      unfold getEdgesForNode
      rw [filter_disjoint_nil, filter_disjoint_nil]
      · rfl
      · intro a ha
        simp only [Bool.and_eq_true, bne_iff_ne] at ha
        simp [ha.2]
      · intro a ha
        simp only [Bool.and_eq_true, bne_iff_ne] at ha
        simp [ha.1]
    · rw [hdel]
      intro m hm
      have := List.of_mem_filter hm
      simpa using this
    · rw [hdel]
      unfold getStateHistory
      rw [filter_disjoint_nil]
      · rfl
      · intro a ha
        simp only [bne_iff_ne] at ha
        simp [ha]
    · intro hnone
      exfalso
      rw [List.any_eq_true] at hex
      obtain ⟨n, hn, hni⟩ := hex
      have : db.nodes.find? (fun nd => nd.id == id) = none := hnone
      rw [List.find?_eq_none] at this
      exact this n hn hni
  · have hdel : deleteNode db id now = db := by
      unfold deleteNode
      rw [if_neg hex]
    have hnone : ∀ n ∈ db.nodes, n.id ≠ id := by
      intro n hn
      rw [List.any_eq_true] at hex
      push_neg at hex
      simpa using hex n hn
    refine ⟨?_, ?_, ?_, ?_, fun _ => hdel⟩
    · rw [hdel]
      unfold getNodeById
      apply List.find?_eq_none.mpr
      intro x hx
      simp [hnone x hx]
    · rw [hdel]
      unfold getEdgesForNode
      have h1 : db.edges.filter (fun e => e.source_id == id) = [] := by
        rw [List.filter_eq_nil_iff]
        intro a ha
        obtain ⟨⟨n, hn, hni⟩, _⟩ := hefk a ha
        simp only [beq_iff_eq]
        intro hcon
        exact hnone n hn (hni.trans hcon)
      have h2 : db.edges.filter (fun e => e.target_id == id) = [] := by
        rw [List.filter_eq_nil_iff]
        intro a ha
        obtain ⟨_, ⟨n, hn, hni⟩⟩ := hefk a ha
        simp only [beq_iff_eq]
        intro hcon
        exact hnone n hn (hni.trans hcon)
      rw [h1, h2]
      rfl
    · rw [hdel]
      intro m hm
      obtain ⟨n, hn, hni⟩ := hmfk m hm
      intro hcon
      exact hnone n hn (hni.trans hcon)
    · rw [hdel]
      unfold getStateHistory
      have h1 : db.history.filter (fun h => h.node_id == id) = [] := by
        rw [List.filter_eq_nil_iff]
        intro a ha
        obtain ⟨n, hn, hni⟩ := hhfk a ha
        simp only [beq_iff_eq]
        intro hcon
        exact hnone n hn (hni.trans hcon)
      rw [h1]
      rfl

/-- A demo state transition of node 1. -/
def demoTran1 : StateTransitionInput :=
  { node_id := 1, from_state := some "fluid", to_state := "gel"
    from_confidence := some "low", to_confidence := "medium"
    reason := some "working conclusion", evidence_quality := mkRat 7 10
    transition_date := "2025-01-02T00:00:00Z", user_id := none }

/-- A demo mention of entity 1 inside node 1. -/
def demoMention1 : EntityMentionInput :=
  { entity_id := 1, node_id := 1, mention_text := "Rust"
    context := none, confidence := mkRat 9 10, position_start := some 0
    position_end := some 4, mention_type := "reference"
    created_at := "2025-01-02T00:00:00Z" }

/-- Demo store with two nodes, an edge, a history row, an entity and a
mention, built from the fresh store. -/
def c5DemoDB : DBState :=
  runOps initState
    [.opInsertNode demoNodeV1, .opInsertNode demoNodeB,
     .opInsertEdge demoEdge1, .opRecordTransition demoTran1,
     .opUpsertEntity "Rust" "technology" "vault-one" "2025-01-02T00:00:00Z",
     .opRecordMention demoMention1 "2025-01-02T00:00:00Z"]

/-- C5 witness: deleting node 1 of the demo store empties every lookup. -/
theorem c5_delete_node_cascade_witness :
    getNodeById (deleteNode c5DemoDB 1 "2025-01-03T00:00:00Z") 1 = none ∧
    getEdgesForNode (deleteNode c5DemoDB 1 "2025-01-03T00:00:00Z") 1 =
      ([], []) ∧
    (∀ m ∈ (deleteNode c5DemoDB 1 "2025-01-03T00:00:00Z").mentions,
      m.node_id ≠ 1) ∧
    getStateHistory (deleteNode c5DemoDB 1 "2025-01-03T00:00:00Z") 1 = [] ∧
    (getNodeById c5DemoDB 1 = none →
      deleteNode c5DemoDB 1 "2025-01-03T00:00:00Z" = c5DemoDB) :=
  c5_delete_node_cascade c5DemoDB 1 "2025-01-03T00:00:00Z"
    (by decide) (by decide) (by decide)

/-- The second demo transition, recorded after the first but with a later
`transition_date`: the crystal promotion with evidence quality 0.95. -/
def demoTran2 : StateTransitionInput :=
  { node_id := 1, from_state := some "gel", to_state := "crystal"
    from_confidence := some "medium", to_confidence := "high"
    reason := some "validated", evidence_quality := mkRat 95 100
    transition_date := "2025-01-03T00:00:00Z", user_id := none }

/-- Node A with a fluid-to-gel and then a gel-to-crystal transition. -/
def c8DemoDB : DBState :=
  runOps initState
    [.opInsertNode demoNodeV1, .opRecordTransition demoTran1,
     .opRecordTransition demoTran2]

/-- C8.  `getStateHistory` returns exactly the history rows of the node
(a permutation of the rows filtered by `node_id`, whatever the order of
insertion) sorted by `transition_date` most-recent-first, and on the
concrete crystal-promotion scenario it returns exactly two rows with the
crystal transition first. -/
theorem c8_state_history_ordered :
    (∀ (db : DBState) (nodeId : Nat),
      List.Sorted dateDesc (getStateHistory db nodeId)) ∧
    (∀ (db : DBState) (nodeId : Nat),
      (getStateHistory db nodeId).Perm
        (db.history.filter fun h => h.node_id == nodeId)) ∧
    ((getStateHistory c8DemoDB 1).map fun t => t.to_state) =
      ["crystal", "gel"] ∧
    (getStateHistory c8DemoDB 1).length = 2 := by
  haveI htot : IsTotal StateTransition dateDesc :=
    ⟨fun a b => le_total b.transition_date a.transition_date⟩
  haveI htr : IsTrans StateTransition dateDesc :=
    ⟨fun _ _ _ hab hbc => le_trans hbc hab⟩
  refine ⟨?_, ?_, ?_, ?_⟩
  · intro db nodeId
    exact List.sorted_insertionSort dateDesc _
  · intro db nodeId
    exact List.perm_insertionSort dateDesc _
  · decide
  · decide

/-! ### The mention-count invariant (C1) -/

/-- Every entity row carries exactly the number of live mention rows that
reference it. -/
@[reducible] def MentionCountOk (db : DBState) : Prop :=
  ∀ e ∈ db.entities, e.mention_count =
    ((db.mentions.filter fun m => m.entity_id == e.id).length : Int)

/-- Entity rowids stay below the AUTOINCREMENT counter. -/
@[reducible] def EntityIdsBounded (db : DBState) : Prop :=
  ∀ e ∈ db.entities, e.id < db.nextEntityId

/-- Mention rows reference only already-allocated entity rowids. -/
@[reducible] def MentionEntityBounded (db : DBState) : Prop :=
  ∀ m ∈ db.mentions, m.entity_id < db.nextEntityId

/-- The part of the database invariant needed for the mention-count
consistency argument. -/
structure InvC1 (db : DBState) : Prop where
  entB : EntityIdsBounded db
  menB : MentionEntityBounded db
  cnt : MentionCountOk db

/-- Transport of `InvC1` along equality of the three relevant fields. -/
theorem InvC1_of_eq {db : DBState} (db' : DBState)
    (he : db'.entities = db.entities) (hm : db'.mentions = db.mentions)
    (hn : db'.nextEntityId = db.nextEntityId) (h : InvC1 db) : InvC1 db' := by
  constructor
  · intro e hee
    rw [he] at hee
    rw [hn]
    exact h.entB e hee
  · intro m hmm
    rw [hm] at hmm
    rw [hn]
    exact h.menB m hmm
  · intro e hee
    rw [he] at hee
    rw [hm]
    exact h.cnt e hee

/-- `decEntity` keeps the rowid. -/
theorem decEntity_id (r : List EntityMention) (now : String)
    (e : SemanticEntity) : (decEntity r now e).id = e.id := by
  unfold decEntity
  dsimp only
  split <;> rfl

/-- `decEntity` drops the count by the number of removed mentions of the
entity. -/
theorem decEntity_count (r : List EntityMention) (now : String)
    (e : SemanticEntity) :
    (decEntity r now e).mention_count = e.mention_count -
      (((r.filter fun m => m.entity_id == e.id).length : Int)) := by
  unfold decEntity
  dsimp only
  split
  · next hk =>
    have : (r.filter fun m => m.entity_id == e.id).length = 0 := by
      simpa using hk
    simp [this]
  · rfl

/-- `cascadeEntity` keeps the rowid. -/
theorem cascadeEntity_id (r : List EntityMention) (i : Nat) (now : String)
    (e : SemanticEntity) : (cascadeEntity r i now e).id = e.id := by
  unfold cascadeEntity
  dsimp only
  split <;> simp [decEntity_id]

/-- `cascadeEntity` changes the count exactly as `decEntity` does. -/
theorem cascadeEntity_count (r : List EntityMention) (i : Nat) (now : String)
    (e : SemanticEntity) :
    (cascadeEntity r i now e).mention_count = e.mention_count -
      (((r.filter fun m => m.entity_id == e.id).length : Int)) := by
  unfold cascadeEntity
  dsimp only
  split <;> simp [decEntity_count]

/-- Splitting a mention count along membership in a node. -/
theorem mention_split_node (l : List EntityMention) (nid eid : Nat) :
    (l.filter fun m => m.entity_id == eid).length =
      ((l.filter fun m => m.node_id == nid).filter
        fun m => m.entity_id == eid).length +
      ((l.filter fun m => m.node_id != nid).filter
        fun m => m.entity_id == eid).length := by
  induction l with
  | nil => rfl
  | cons x xs ih =>
    by_cases hn : x.node_id = nid <;> by_cases he : x.entity_id = eid <;>
      simp [List.filter_cons, hn, he, ih] <;> omega

/-- Splitting a mention count along a mention rowid. -/
theorem mention_split_mid (l : List EntityMention) (mid eid : Nat) :
    (l.filter fun m => m.entity_id == eid).length =
      ((l.filter fun m => m.id == mid).filter
        fun m => m.entity_id == eid).length +
      ((l.filter fun m => m.id != mid).filter
        fun m => m.entity_id == eid).length := by
  induction l with
  | nil => rfl
  | cons x xs ih =>
    by_cases hn : x.id = mid <;> by_cases he : x.entity_id = eid <;>
      simp [List.filter_cons, hn, he, ih] <;> omega

/-- A mention filter ignores rows of other entities. -/
theorem filter_entity_of_ne (l : List EntityMention) (eid j : Nat)
    (h : j ≠ eid) :
    ((l.filter fun m => m.entity_id != j).filter
      fun m => m.entity_id == eid) = l.filter fun m => m.entity_id == eid := by
  induction l with
  | nil => rfl
  | cons x xs ih =>
    by_cases he : x.entity_id = eid
    · simp [List.filter_cons, he, Ne.symm h, ih]
    · by_cases hj : x.entity_id = j <;>
        simp [List.filter_cons, he, hj, h, ih]

/-- A successful `updateNode` touches only the node table and the FTS
index. -/
theorem updateNode_fields (db : DBState) (id : Nat) (u : NodeUpdate)
    (now : String) (db' : DBState) (h : updateNode db id u now = .ok db') :
    db'.entities = db.entities ∧ db'.mentions = db.mentions ∧
    db'.nextEntityId = db.nextEntityId ∧ db'.edges = db.edges ∧
    db'.history = db.history ∧ db'.syncs = db.syncs ∧
    db'.nextNodeId = db.nextNodeId ∧
    db'.nextMentionId = db.nextMentionId := by
  unfold updateNode at h
  split at h
  · exact absurd h (by simp)
  · split at h
    · cases h
      exact ⟨rfl, rfl, rfl, rfl, rfl, rfl, rfl, rfl⟩
    · dsimp only at h
      split at h
      · exact absurd h (by simp)
      · cases h
        exact ⟨rfl, rfl, rfl, rfl, rfl, rfl, rfl, rfl⟩

/-- `InvC1` is preserved by `insertNode`. -/
theorem InvC1_insertNode (db : DBState) (n : KnowledgeNodeInput)
    (h : InvC1 db) : InvC1 (applyOp db (.opInsertNode n)) := by
  refine InvC1_of_eq _ ?_ ?_ ?_ h <;>
    by_cases hc : (db.nodes.any fun m => m.path == n.path) = true <;>
      simp [applyOp, insertNode, hc]

/-- `InvC1` is preserved by `updateNode`. -/
theorem InvC1_updateNode (db : DBState) (id : Nat) (u : NodeUpdate)
    (now : String) (h : InvC1 db) :
    InvC1 (applyOp db (.opUpdateNode id u now)) := by
  simp only [applyOp]
  cases hr : updateNode db id u now with
  | error e => exact h
  | ok db' =>
    obtain ⟨he, hm, hn, -⟩ := updateNode_fields db id u now db' hr
    exact InvC1_of_eq db' he hm hn h

/-- A successful `insertEdge` touches only the edge table. -/
theorem insertEdge_fields (db : DBState) (e : SemanticEdgeInput)
    (db' : DBState) (i : Nat) (h : insertEdge db e = .ok (db', i)) :
    db'.entities = db.entities ∧ db'.mentions = db.mentions ∧
    db'.nextEntityId = db.nextEntityId ∧ db'.nodes = db.nodes ∧
    db'.search = db.search ∧ db'.nextNodeId = db.nextNodeId := by
  unfold insertEdge at h
  split at h
  · exact absurd h (by simp)
  · split at h
    · exact absurd h (by simp)
    · split at h
      · exact absurd h (by simp)
      · dsimp only at h
        cases h
        exact ⟨rfl, rfl, rfl, rfl, rfl, rfl⟩

/-- `InvC1` is preserved by `insertEdge`. -/
theorem InvC1_insertEdge (db : DBState) (e : SemanticEdgeInput)
    (h : InvC1 db) : InvC1 (applyOp db (.opInsertEdge e)) := by
  simp only [applyOp]
  cases hr : insertEdge db e with
  | error _ => exact h
  | ok r =>
    obtain ⟨he, hm, hn, -⟩ := insertEdge_fields db e r.1 r.2 hr
    exact InvC1_of_eq r.1 he hm hn h

/-- A successful `recordStateTransition` touches only the history table. -/
theorem recordStateTransition_fields (db : DBState)
    (t : StateTransitionInput) (db' : DBState) (i : Nat)
    (h : recordStateTransition db t = .ok (db', i)) :
    db'.entities = db.entities ∧ db'.mentions = db.mentions ∧
    db'.nextEntityId = db.nextEntityId ∧ db'.nodes = db.nodes ∧
    db'.search = db.search ∧ db'.nextNodeId = db.nextNodeId := by
  unfold recordStateTransition at h
  split at h
  · dsimp only at h
    cases h
    exact ⟨rfl, rfl, rfl, rfl, rfl, rfl⟩
  · exact absurd h (by simp)

/-- `InvC1` is preserved by `recordStateTransition`. -/
theorem InvC1_recordTransition (db : DBState) (t : StateTransitionInput)
    (h : InvC1 db) : InvC1 (applyOp db (.opRecordTransition t)) := by
  simp only [applyOp]
  cases hr : recordStateTransition db t with
  | error _ => exact h
  | ok r =>
    obtain ⟨he, hm, hn, -⟩ := recordStateTransition_fields db t r.1 r.2 hr
    exact InvC1_of_eq r.1 he hm hn h

/-- `InvC1` is preserved by `startSync`. -/
theorem InvC1_startSync (db : DBState) (v now : String) (h : InvC1 db) :
    InvC1 (applyOp db (.opStartSync v now)) := by
  exact @InvC1_of_eq db _ rfl rfl rfl h

/-- `InvC1` is preserved by `updateSyncProgress`. -/
theorem InvC1_updateSync (db : DBState) (id : Nat) (u : SyncUpdate)
    (h : InvC1 db) : InvC1 (applyOp db (.opUpdateSync id u)) := by
  simp only [applyOp]
  cases hr : updateSyncProgress db id u with
  | error _ => exact h
  | ok db' =>
    have hfields : db'.entities = db.entities ∧ db'.mentions = db.mentions ∧
        db'.nextEntityId = db.nextEntityId := by
      unfold updateSyncProgress at hr
      split at hr
      · exact absurd hr (by simp)
      · cases hr
        exact ⟨rfl, rfl, rfl⟩
    obtain ⟨he, hm, hn⟩ := hfields
    exact InvC1_of_eq db' he hm hn h

/-- `InvC1` is preserved by `completeSync`. -/
theorem InvC1_completeSync (db : DBState) (id : Nat) (st : String)
    (em : Option String) (now : String) (h : InvC1 db) :
    InvC1 (applyOp db (.opCompleteSync id st em now)) := by
  exact @InvC1_of_eq db _ rfl rfl rfl h

/-- `InvC1` is preserved by `upsertEntity`: a fresh entity starts with
`mention_count = 0` and no mention row can reference its fresh rowid. -/
theorem InvC1_upsertEntity (db : DBState) (name etype vault now : String)
    (h : InvC1 db) :
    InvC1 (applyOp db (.opUpsertEntity name etype vault now)) := by
  simp only [applyOp]
  unfold upsertEntity
  cases hf : db.entities.find? (fun e => e.name == name) with
  | some e => exact h
  | none =>
    dsimp only
    constructor
    · intro e' he'
      rcases List.mem_append.mp he' with hmem | hmem
      · exact Nat.lt_succ_of_lt (h.entB e' hmem)
      · simp only [List.mem_singleton] at hmem
        subst hmem
        exact Nat.lt_succ_self _
    · intro m hm
      exact Nat.lt_succ_of_lt (h.menB m hm)
    · intro e' he'
      rcases List.mem_append.mp he' with hmem | hmem
      · exact h.cnt e' hmem
      · have hm' := List.mem_singleton.mp hmem
        subst hm'
        have hnil : (db.mentions.filter
            fun m => m.entity_id == db.nextEntityId) = [] := by
          rw [List.filter_eq_nil_iff]
          intro m hm
          simp only [beq_iff_eq]
          exact Nat.ne_of_lt (h.menB m hm)
        show (0 : Int) = ((db.mentions.filter
            fun m => m.entity_id == db.nextEntityId).length : Int)
        rw [hnil]
        rfl

/-- `InvC1` is preserved by `recordMention`: the trigger bumps the count of
exactly the entity the new row references. -/
theorem InvC1_recordMention (db : DBState) (m : EntityMentionInput)
    (now : String) (h : InvC1 db) :
    InvC1 (applyOp db (.opRecordMention m now)) := by
  simp only [applyOp]
  cases hr : recordMention db m now with
  | error _ => exact h
  | ok r =>
    unfold recordMention at hr
    split at hr
    · exact absurd hr (by simp)
    · next hguard =>
      have hgs : (db.entities.any fun e => e.id == m.entity_id) = true ∧
          (db.nodes.any fun n => n.id == m.node_id) = true := by
        simp only [Bool.or_eq_true, Bool.not_eq_true', not_or,
          Bool.not_eq_false] at hguard
        exact hguard
      dsimp only at hr
      cases hr
      constructor
      · intro e' he'
        obtain ⟨e, he, rfl⟩ := List.mem_map.mp he'
        have hid : ((fun e => if (e.id == m.entity_id) = true then
            { e with mention_count := e.mention_count + 1
                     modified_at := now } else e) e).id = e.id := by
          by_cases hc : e.id = m.entity_id <;> simp [hc]
        rw [hid]
        exact h.entB e he
      · intro mm hmm
        rcases List.mem_append.mp hmm with hmem | hmem
        · exact h.menB mm hmem
        · simp only [List.mem_singleton] at hmem
          subst hmem
          obtain ⟨e, he, hei⟩ := List.any_eq_true.mp hgs.1
          rw [beq_iff_eq] at hei
          exact hei ▸ h.entB e he
      · intro e' he'
        obtain ⟨e, he, rfl⟩ := List.mem_map.mp he'
        have hcnt := h.cnt e he
        by_cases hid : e.id = m.entity_id
        · simp [hid, List.filter_append] at hcnt ⊢
          omega
        · have hne : m.entity_id ≠ e.id := fun hc => hid hc.symm
          simpa [hid, hne, List.filter_append] using hcnt

/-- `InvC1` is preserved by `removeMention`: the trigger fires once per
deleted row, so the count of each entity drops by exactly the number of its
deleted mentions. -/
theorem InvC1_removeMention (db : DBState) (mid : Nat) (now : String)
    (h : InvC1 db) : InvC1 (applyOp db (.opRemoveMention mid now)) := by
  simp only [applyOp]
  unfold removeMention
  dsimp only
  split
  · exact h
  · constructor
    · intro e' he'
      obtain ⟨e, he, rfl⟩ := List.mem_map.mp he'
      rw [decEntity_id]
      exact h.entB e he
    · intro mm hmm
      exact h.menB mm (List.mem_of_mem_filter hmm)
    · intro e' he'
      obtain ⟨e, he, rfl⟩ := List.mem_map.mp he'
      rw [decEntity_count, decEntity_id]
      have hsplit := mention_split_mid db.mentions mid e.id
      have := h.cnt e he
      push_cast
      omega

/-- `InvC1` is preserved by `deleteNode`: the cascaded mention deletions
fire the count trigger once per removed row. -/
theorem InvC1_deleteNode (db : DBState) (id : Nat) (now : String)
    (h : InvC1 db) : InvC1 (applyOp db (.opDeleteNode id now)) := by
  simp only [applyOp]
  unfold deleteNode
  dsimp only
  split
  · constructor
    · intro e' he'
      obtain ⟨e, he, rfl⟩ := List.mem_map.mp he'
      rw [cascadeEntity_id]
      exact h.entB e he
    · intro mm hmm
      exact h.menB mm (List.mem_of_mem_filter hmm)
    · intro e' he'
      obtain ⟨e, he, rfl⟩ := List.mem_map.mp he'
      rw [cascadeEntity_count, cascadeEntity_id]
      have hsplit := mention_split_node db.mentions id e.id
      have := h.cnt e he
      push_cast
      omega
  · exact h

/-- `InvC1` is preserved by `deleteEntity`: the cascade removes exactly the
mentions of the deleted entity, which no surviving entity counts. -/
theorem InvC1_deleteEntity (db : DBState) (eid : Nat) (h : InvC1 db) :
    InvC1 (applyOp db (.opDeleteEntity eid)) := by
  simp only [applyOp]
  unfold deleteEntity
  split
  · constructor
    · intro e' he'
      exact h.entB e' (List.mem_of_mem_filter he')
    · intro mm hmm
      exact h.menB mm (List.mem_of_mem_filter hmm)
    · intro e' he'
      have hmem := List.mem_of_mem_filter he'
      have hcond : e'.id ≠ eid := by
        simpa using List.of_mem_filter he'
      rw [filter_entity_of_ne db.mentions e'.id eid (fun hc => hcond hc.symm)]
      exact h.cnt e' hmem
  · exact h

/-- `InvC1` is preserved by every operation. -/
theorem InvC1_applyOp (db : DBState) (op : DBOp) (h : InvC1 db) :
    InvC1 (applyOp db op) := by
  cases op with
  | opInsertNode n => exact InvC1_insertNode db n h
  | opUpdateNode id u now => exact InvC1_updateNode db id u now h
  | opDeleteNode id now => exact InvC1_deleteNode db id now h
  | opInsertEdge e => exact InvC1_insertEdge db e h
  | opRecordTransition t => exact InvC1_recordTransition db t h
  | opStartSync v now => exact InvC1_startSync db v now h
  | opUpdateSync id u => exact InvC1_updateSync db id u h
  | opCompleteSync id st em now => exact InvC1_completeSync db id st em now h
  | opUpsertEntity name etype vault now =>
    exact InvC1_upsertEntity db name etype vault now h
  | opRecordMention m now => exact InvC1_recordMention db m now h
  | opRemoveMention id now => exact InvC1_removeMention db id now h
  | opDeleteEntity id => exact InvC1_deleteEntity db id h

/-- `InvC1` is preserved by arbitrary operation sequences. -/
theorem InvC1_runOps (ops : List DBOp) (db : DBState) (h : InvC1 db) :
    InvC1 (runOps db ops) := by
  induction ops generalizing db with
  | nil => exact h
  | cons op ops ih => exact ih (applyOp db op) (InvC1_applyOp db op h)

/-- The fresh store satisfies the invariant. -/
theorem InvC1_init : InvC1 initState :=
  ⟨fun e he => absurd he (List.not_mem_nil e),
   fun m hm => absurd hm (List.not_mem_nil m),
   fun e he => absurd he (List.not_mem_nil e)⟩

/-- C1 demo run: create an entity and a node, record three mentions of the
entity (N = 3), remove one (M = 1); the final count must be N - M = 2. -/
def c1DemoOps : List DBOp :=
  [.opUpsertEntity "Rust" "technology" "vault-one" "2025-01-01T00:00:00Z",
   .opInsertNode demoNodeV1,
   .opRecordMention demoMention1 "2025-01-02T00:00:00Z",
   .opRecordMention demoMention1 "2025-01-03T00:00:00Z",
   .opRecordMention demoMention1 "2025-01-04T00:00:00Z",
   .opRemoveMention 2 "2025-01-05T00:00:00Z"]

/-- The entity row of the C1 demo run after all six operations. -/
def c1DemoEntity : SemanticEntity :=
  { id := 1, name := "Rust", entity_type := "technology"
    description := none, authority_node_id := none
    confidence := mkRat 1 2, vault_name := "vault-one"
    created_at := "2025-01-01T00:00:00Z"
    modified_at := "2025-01-05T00:00:00Z", mention_count := 2 }

/-- C1.  After any sequence of operations on the fresh store - mention
inserts and deletes, including the rows cascade-deleted with their node or
entity - every entity row carries a `mention_count` equal to the number of
live `entity_mentions` rows that reference it; in the concrete demo run
with N = 3 inserts and M = 1 removal the stored count is 2 = N - M. -/
theorem c1_mention_count :
    (∀ ops : List DBOp, MentionCountOk (runOps initState ops)) ∧
    ((runOps initState c1DemoOps).entities.map fun e => e.mention_count) =
      [(2 : Int)] :=
  ⟨fun ops => (InvC1_runOps ops initState InvC1_init).cnt, by decide⟩

/-- C1 witness: the invariant applied to the demo run and its entity row. -/
theorem c1_mention_count_witness :
    c1DemoEntity.mention_count =
      (((runOps initState c1DemoOps).mentions.filter
        fun m => m.entity_id == c1DemoEntity.id).length : Int) :=
  c1_mention_count.1 c1DemoOps c1DemoEntity (by decide)

/-! ### The full-text index invariant (C6) -/

/-- Node rowids stay below the AUTOINCREMENT counter. -/
@[reducible] def NodeIdsBounded (db : DBState) : Prop :=
  ∀ n ∈ db.nodes, n.id < db.nextNodeId

/-- The part of the database invariant needed for the FTS consistency
argument: bounded fresh rowids, distinct rowids, and a search table that is
the node table projected through `nodeToSearch`, up to order. -/
structure InvC6 (db : DBState) : Prop where
  nB : NodeIdsBounded db
  nd : (db.nodes.map fun n => n.id).Nodup
  sOk : db.search.Perm (db.nodes.map nodeToSearch)

/-- Transport of `InvC6` along equality of the three relevant fields. -/
theorem InvC6_of_eq {db : DBState} (db' : DBState)
    (hn : db'.nodes = db.nodes) (hs : db'.search = db.search)
    (hi : db'.nextNodeId = db.nextNodeId) (h : InvC6 db) : InvC6 db' := by
  constructor
  · intro n hnn
    rw [hn] at hnn
    rw [hi]
    exact h.nB n hnn
  · rw [hn]
    exact h.nd
  · rw [hn, hs]
    exact h.sOk

/-- Projecting to the FTS view and filtering by rowid commutes with
filtering the node table by id. -/
theorem filter_map_proj (l : List KnowledgeNode) (i : Nat) :
    ((l.map nodeToSearch).filter fun s => s.rowid != i) =
      (l.filter fun n => n.id != i).map nodeToSearch := by
  rw [List.filter_map]
  rfl

/-- Rewriting the unique row of a given rowid in place is, after projection
to the FTS view, a permutation of dropping the old FTS entry of that rowid
and appending the freshly projected row: exactly the effect of the
`fts_nodes_update` trigger. -/
theorem map_replace_perm (l : List KnowledgeNode) (i : Nat)
    (g : KnowledgeNode → KnowledgeNode)
    (hnd : (l.map fun n => n.id).Nodup)
    (nd : KnowledgeNode) (hfind : l.find? (fun m => m.id == i) = some nd) :
    ((l.map fun m => if (m.id == i) = true then g m else m).map
      nodeToSearch).Perm
      (((l.map nodeToSearch).filter fun s => s.rowid != i) ++
        [nodeToSearch (g nd)]) := by
  induction l with
  | nil => simp at hfind
  | cons x xs ih =>
    have hnd' : x.id ∉ (xs.map fun n => n.id) ∧
        ((xs.map fun n => n.id).Nodup) := by
      rw [List.map_cons, List.nodup_cons] at hnd
      exact hnd
    by_cases hx : x.id = i
    · have hfx : x = nd := by
        rw [List.find?_cons_of_pos _ (by simp [hx])] at hfind
        exact Option.some.inj hfind
      subst hfx
      have hxs : ∀ m ∈ xs, (m.id == i) = false := by
        intro m hm
        simp only [beq_eq_false_iff_ne, ne_eq]
        intro hc
        exact hnd'.1 (List.mem_map.mpr ⟨m, hm, hc.trans hx.symm⟩)
      have hmapxs : (xs.map fun m =>
          if (m.id == i) = true then g m else m) = xs := by
        have hmm : (xs.map fun m =>
            if (m.id == i) = true then g m else m) = xs.map id :=
          List.map_congr_left (fun a ha => by simp [hxs a ha])
        rw [hmm, List.map_id]
      have hfilter : ((xs.map nodeToSearch).filter
          fun s => s.rowid != i) = xs.map nodeToSearch := by
        rw [List.filter_eq_self]
        intro a ha
        obtain ⟨m, hm, rfl⟩ := List.mem_map.mp ha
        have hmne := hxs m hm
        simp only [nodeToSearch, bne_iff_ne, ne_eq]
        simpa using hmne
      have h1 : (((x :: xs).map fun m =>
          if (m.id == i) = true then g m else m).map nodeToSearch) =
          nodeToSearch (g x) :: xs.map nodeToSearch := by
        rw [List.map_cons, List.map_cons, hmapxs, if_pos (by simp [hx])]
      have h2 : (((x :: xs).map nodeToSearch).filter
          fun s => s.rowid != i) ++ [nodeToSearch (g x)] =
          xs.map nodeToSearch ++ [nodeToSearch (g x)] := by
        rw [List.map_cons, List.filter_cons,
          if_neg (by simp [nodeToSearch, hx]), hfilter]
      rw [h1, h2]
      exact (List.perm_append_singleton _ _).symm
    · have hfind' : xs.find? (fun m => m.id == i) = some nd := by
        rw [List.find?_cons_of_neg _ (by simp [hx])] at hfind
        exact hfind
      have h1 : (((x :: xs).map fun m =>
          if (m.id == i) = true then g m else m).map nodeToSearch) =
          nodeToSearch x ::
            ((xs.map fun m => if (m.id == i) = true then g m else m).map
              nodeToSearch) := by
        rw [List.map_cons, List.map_cons, if_neg (by simp [hx])]
      have h2 : (((x :: xs).map nodeToSearch).filter
          fun s => s.rowid != i) ++ [nodeToSearch (g nd)] =
          nodeToSearch x ::
            (((xs.map nodeToSearch).filter fun s => s.rowid != i) ++
              [nodeToSearch (g nd)]) := by
        rw [List.map_cons, List.filter_cons,
          if_pos (by simp [nodeToSearch, hx]), List.cons_append]
      rw [h1, h2]
      exact (ih hnd'.2 hfind').cons _

/-- `InvC6` is preserved by `insertNode`: the trigger `fts_nodes_insert`
adds exactly the FTS entry of the new row. -/
theorem InvC6_insertNode (db : DBState) (n : KnowledgeNodeInput)
    (h : InvC6 db) : InvC6 (applyOp db (.opInsertNode n)) := by
  simp only [applyOp]
  unfold insertNode
  by_cases hc : (db.nodes.any fun m => m.path == n.path) = true
  · rw [if_pos hc]
    exact h
  · rw [if_neg hc]
    dsimp only
    constructor
    · intro nn hnn
      rcases List.mem_append.mp hnn with hmem | hmem
      · exact Nat.lt_succ_of_lt (h.nB nn hmem)
      · have hm' := List.mem_singleton.mp hmem
        subst hm'
        exact Nat.lt_succ_self _
    · rw [List.map_append]
      rw [List.nodup_append]
      refine ⟨h.nd, List.nodup_singleton _, ?_⟩
      intro a ha hb
      have hb' := List.mem_singleton.mp hb
      subst hb'
      obtain ⟨nn, hnn, hni⟩ := List.mem_map.mp ha
      exact absurd hni (Nat.ne_of_lt (h.nB nn hnn))
    · rw [List.map_append]
      exact h.sOk.append_right _

/-- `InvC6` is preserved by `updateNode`: the trigger `fts_nodes_update`
deletes the OLD FTS entry of the row and inserts the NEW one. -/
theorem InvC6_updateNode (db : DBState) (id : Nat) (u : NodeUpdate)
    (now : String) (h : InvC6 db) :
    InvC6 (applyOp db (.opUpdateNode id u now)) := by
  simp only [applyOp]
  cases hr : updateNode db id u now with
  | error _ => exact h
  | ok db' =>
    unfold updateNode at hr
    split at hr
    · exact absurd hr (by simp)
    · split at hr
      · cases hr
        exact h
      · next nd hf =>
        dsimp only at hr
        split at hr
        · exact absurd hr (by simp)
        · cases hr
          constructor
          · intro nn hnn
            obtain ⟨mm, hmm, rfl⟩ := List.mem_map.mp hnn
            have hid : ((fun m => if (m.id == id) = true then
                applyNodeUpdate m u now else m) mm).id = mm.id := by
              by_cases hcc : mm.id = id <;> simp [hcc, applyNodeUpdate]
            rw [hid]
            exact h.nB mm hmm
          · have hmm : ((db.nodes.map fun m =>
                if (m.id == id) = true then applyNodeUpdate m u now else m).map
                  fun n => n.id) = db.nodes.map fun n => n.id := by
              rw [List.map_map]
              apply List.map_congr_left
              intro a ha
              by_cases hcc : a.id = id <;> simp [hcc, applyNodeUpdate]
            rw [hmm]
            exact h.nd
          · have hperm := map_replace_perm db.nodes id
              (fun m => applyNodeUpdate m u now) h.nd nd hf
            refine List.Perm.trans ?_ hperm.symm
            exact (h.sOk.filter _).append_right _

/-- `InvC6` is preserved by `deleteNode`: the trigger `fts_nodes_delete`
removes exactly the FTS entry of the deleted row. -/
theorem InvC6_deleteNode (db : DBState) (id : Nat) (now : String)
    (h : InvC6 db) : InvC6 (applyOp db (.opDeleteNode id now)) := by
  simp only [applyOp]
  unfold deleteNode
  dsimp only
  split
  · constructor
    · intro nn hnn
      exact h.nB nn (List.mem_of_mem_filter hnn)
    · exact List.Nodup.sublist
        (List.Sublist.map _ (List.filter_sublist _)) h.nd
    · rw [← filter_map_proj]
      exact h.sOk.filter _
  · exact h

/-- `InvC6` is preserved by every remaining operation, none of which
touches the node table, the FTS table or the node counter. -/
theorem InvC6_other (db : DBState) (op : DBOp)
    (hn : (applyOp db op).nodes = db.nodes)
    (hs : (applyOp db op).search = db.search)
    (hi : (applyOp db op).nextNodeId = db.nextNodeId)
    (h : InvC6 db) : InvC6 (applyOp db op) :=
  InvC6_of_eq _ hn hs hi h

/-- `InvC6` is preserved by every operation. -/
theorem InvC6_applyOp (db : DBState) (op : DBOp) (h : InvC6 db) :
    InvC6 (applyOp db op) := by
  cases op with
  | opInsertNode n => exact InvC6_insertNode db n h
  | opUpdateNode id u now => exact InvC6_updateNode db id u now h
  | opDeleteNode id now => exact InvC6_deleteNode db id now h
  | opInsertEdge e =>
    refine InvC6_other db _ ?_ ?_ ?_ h <;>
      · simp only [applyOp]
        cases hr : insertEdge db e with
        | error _ => rfl
        | ok r =>
          obtain ⟨-, -, -, hn, hs, hi⟩ := insertEdge_fields db e r.1 r.2 hr
          first | exact hn | exact hs | exact hi
  | opRecordTransition t =>
    refine InvC6_other db _ ?_ ?_ ?_ h <;>
      · simp only [applyOp]
        cases hr : recordStateTransition db t with
        | error _ => rfl
        | ok r =>
          obtain ⟨-, -, -, hn, hs, hi⟩ :=
            recordStateTransition_fields db t r.1 r.2 hr
          first | exact hn | exact hs | exact hi
  | opStartSync v now => exact InvC6_other db _ rfl rfl rfl h
  | opUpdateSync id u =>
    refine InvC6_other db _ ?_ ?_ ?_ h <;>
      · simp only [applyOp]
        cases hr : updateSyncProgress db id u with
        | error _ => rfl
        | ok db' =>
          have : db'.nodes = db.nodes ∧ db'.search = db.search ∧
              db'.nextNodeId = db.nextNodeId := by
            unfold updateSyncProgress at hr
            split at hr
            · exact absurd hr (by simp)
            · cases hr
              exact ⟨rfl, rfl, rfl⟩
          first | exact this.1 | exact this.2.1 | exact this.2.2
  | opCompleteSync id st em now => exact InvC6_other db _ rfl rfl rfl h
  | opUpsertEntity name etype vault now =>
    refine InvC6_other db _ ?_ ?_ ?_ h <;>
      · simp only [applyOp]
        unfold upsertEntity
        cases hf : db.entities.find? (fun e => e.name == name) <;> rfl
  | opRecordMention m now =>
    refine InvC6_other db _ ?_ ?_ ?_ h <;>
      · simp only [applyOp]
        cases hr : recordMention db m now with
        | error _ => rfl
        | ok r =>
          have : r.1.nodes = db.nodes ∧ r.1.search = db.search ∧
              r.1.nextNodeId = db.nextNodeId := by
            unfold recordMention at hr
            split at hr
            · exact absurd hr (by simp)
            · dsimp only at hr
              cases hr
              exact ⟨rfl, rfl, rfl⟩
          first | exact this.1 | exact this.2.1 | exact this.2.2
  | opRemoveMention id now =>
    refine InvC6_other db _ ?_ ?_ ?_ h <;>
      · simp only [applyOp]
        unfold removeMention
        dsimp only
        split <;> rfl
  | opDeleteEntity id =>
    refine InvC6_other db _ ?_ ?_ ?_ h <;>
      · simp only [applyOp]
        unfold deleteEntity
        split <;> rfl

/-- `InvC6` is preserved by arbitrary operation sequences. -/
theorem InvC6_runOps (ops : List DBOp) (db : DBState) (h : InvC6 db) :
    InvC6 (runOps db ops) := by
  induction ops generalizing db with
  | nil => exact h
  | cons op ops ih => exact ih (applyOp db op) (InvC6_applyOp db op h)

/-- The fresh store satisfies the invariant. -/
theorem InvC6_init : InvC6 initState :=
  ⟨fun n hn => absurd hn (List.not_mem_nil n), List.nodup_nil, List.Perm.refl _⟩

/-- C6.  After any sequence of operations on the fresh store the
`knowledge_search` table is, up to order, exactly the node table projected
through `nodeToSearch` (path, title, content_summary, state, confidence and
vault_name all match), and node rowids are distinct, so the index holds
exactly one entry per node row and never diverges. -/
theorem c6_search_consistency :
    ∀ ops : List DBOp,
      ((runOps initState ops).search).Perm
        ((runOps initState ops).nodes.map nodeToSearch) ∧
      ((runOps initState ops).nodes.map fun n => n.id).Nodup := by
  intro ops
  have h := InvC6_runOps ops initState InvC6_init
  exact ⟨h.sOk, h.nd⟩

end ObsidianKG
